import Mathlib

/-!
The CREATE TABLE builder of go-sqlbuilder.

A shallow embedding of `createtable.go` (package `sqlbuilder`) and of
`types/postgresql.go` (package `types`), followed by theorems about it.

A Go method with a pointer receiver is a function from the builder state to
the new builder state (and to its return value, when it has one).  A Go
`string` is a Lean `String`; the only byte-level operations of the sources
look for the ASCII characters `.` and `s`, which a character-level reading
renders exactly.

Parts of the package that the two source files use but do not contain
(`Args`, `injection`, `Flavor`) are modelled from the specification and are
marked as such; `Escape`, of which the specification gives only the
signature, is a parameter of the two operations that call it.
-/

namespace Sqlbuilder

/-! ## Go library functions used by the sources -/

/-- Go `strings.Join(elems, sep)`. -/
def strings.Join : List String → String → String
  | [], _ => ""
  | [a], _ => a
  | a :: b :: rest, sep => a ++ sep ++ strings.Join (b :: rest) sep

/-- Splitting of a character sequence at every occurrence of `sep`; the
result always has at least one segment. -/
def strings.splitChars (sep : Char) : List Char → List (List Char)
  | [] => [[]]
  | c :: cs =>
    if c = sep then [] :: strings.splitChars sep cs
    else
      match strings.splitChars sep cs with
      | [] => [[c]]
      | seg :: segs => (c :: seg) :: segs

/-- Go `strings.Split(s, sep)` for a separator of one character. -/
def strings.Split (s : String) (sep : Char) : List String :=
  (strings.splitChars sep s.data).map String.mk

/-- Go `strings.HasSuffix(s, suffix)` for a suffix of one character. -/
def strings.HasSuffix (s : String) (suffix : Char) : Bool :=
  s.data.getLast? == some suffix

/-! ## Package `types` (`types/postgresql.go`) -/

/-- Go `type ColType string`. -/
abbrev types.ColType := String

def types.Bigserial : types.ColType := "bigserial"

def types.Varchar : types.ColType := "varchar"

def types.Decimal : types.ColType := "decimal"

def types.Timestamptz : types.ColType := "timestamptz"

/-- Go `func (c ColType) Options(options ...string) ColType`. -/
def types.ColType.Options (c : types.ColType) (options : List String) : types.ColType :=
  let additional := strings.Join options ","
  c ++ "(" ++ additional ++ ")"

/-! ## Collaborators of the builder that are not in the two source files -/

/-- Modelled from the spec: the Flavor Registry.  A flavor owns a
placeholder-rendering rule (a pure function of the 1-based ordinal) and an
identifier-quoting rule. -/
structure Flavor where
  RenderPlaceholder : Nat → String
  QuoteIdentifier : String → String

/-- Modelled from the spec: the Injection Point Registry (Go type `injection`),
a mapping from each marker to the ordered sequence of raw SQL strings queued
at it.  Markers are integers: the source declares its four markers with
`iota` over the type `injectionMarker`. -/
abbrev injectionMarker := Nat

/-- Modelled from the spec: the Injection Point Registry; see `injectionMarker`. -/
structure injection where
  markerSQLs : injectionMarker → List String

/-- Modelled from the spec: the registry of a new builder has no entry at any
marker (Go `newInjection`). -/
def newInjection : injection :=
  { markerSQLs := fun _ => [] }

/-- Modelled from the spec: `Inject(marker, sql)` "appends `sql` to the ordered
list for `marker`" (Go `injection.SQL`). -/
def injection.SQL (inj : injection) (marker : injectionMarker) (sql : String) : injection :=
  { markerSQLs := fun m => if m = marker then inj.markerSQLs m ++ [sql] else inj.markerSQLs m }

/-- Modelled from the spec: what `Flush(marker)` writes: "if any entries exist
for `marker`, a single leading separator (one space) followed by the entries
joined with a single space, in insertion order; nothing if the marker has no
entries". -/
def injection.flush (inj : injection) (marker : injectionMarker) : String :=
  match inj.markerSQLs marker with
  | [] => ""
  | sqls => " " ++ strings.Join sqls " "

/-- Modelled from the spec: `Flush(marker, into)` (Go `injection.WriteTo`)
appends the flushed text to the buffer and leaves the registry as it is. -/
def injection.WriteTo (inj : injection) (buf : String) (marker : injectionMarker) : String :=
  buf ++ inj.flush marker

/-- Modelled from the spec: the Argument Compiler (Go type `Args`): the flavor
of the builder (the field `Flavor` that `Build` and `SetFlavor` of the source
use) and the append-only ordered sequence of registered literal values.  The
synthetic token of a value is derived from its position in the sequence, so
the counter of tokens is the length of the sequence. -/
structure Args (α : Type) where
  Flavor : Flavor
  values : List α

/-- Modelled from the spec: the "reserved prefix" by which synthetic tokens are
recognised.  The specification does not name the character; the dollar sign
is taken here. -/
def tokenSigil : Char := '$'

/-- Modelled from the spec: the synthetic token of the value registered at
position `n` of the pending sequence: the reserved sigil followed by the
counter in decimal. -/
def tokenOf (n : Nat) : String :=
  String.singleton tokenSigil ++ toString n

/-- Modelled from the spec: `RegisterValue(v)` (Go `Args.Add`) "appends `v` to
the pending sequence, returns a fresh synthetic placeholder token" numbered by
a monotonically increasing counter. -/
def Args.Add {α : Type} (args : Args α) (arg : α) : String × Args α :=
  (tokenOf args.values.length, { args with values := args.values ++ [arg] })

/-- Modelled from the spec: the two failures of `Compile`: a malformed or
truncated synthetic token, and a token with no registered value
(desynchronization). -/
inductive CompileError where
  | malformedToken
  | unregisteredToken
deriving DecidableEq, Repr

/-- Modelled from the spec: the position of the left-to-right scan of
`Compile`, which is not in the sources: in plain text, right after the sigil,
or inside the digits of a token whose counter read so far is `n`. -/
inductive ScanMode where
  | text
  | sigil
  | index (n : Nat)
deriving DecidableEq, Repr

/-- Modelled from the spec: the value of a decimal digit of the counter of a
synthetic token, for the scan of `Compile`. -/
def digitValue (c : Char) : Nat :=
  c.toNat - 48

/-- Modelled from the spec: the end of a token numbered `n` during the scan:
the value registered for the token is looked up and appended to the argument
list, and the flavor's placeholder for its ordinal (its 1-based position in
the argument list, the initial arguments occupying the lowest ordinals) is
written to the output. -/
def Args.emit {α : Type} (args : Args α) (flavor : Sqlbuilder.Flavor) (n : Nat) (out : String)
    (vals : List α) : Except CompileError (String × List α) :=
  match args.values[n]? with
  | none => .error .unregisteredToken
  | some v => .ok (out ++ flavor.RenderPlaceholder (vals.length + 1), vals ++ [v])

/-- Modelled from the spec: the scan of `Compile`, "left to right", over the
characters not yet read; `out` is the text written so far and `vals` the
arguments collected so far. -/
def Args.scan {α : Type} (args : Args α) (flavor : Sqlbuilder.Flavor) :
    ScanMode → List Char → String → List α → Except CompileError (String × List α)
  | .text, [], out, vals => .ok (out, vals)
  | .sigil, [], _, _ => .error .malformedToken
  | .index n, [], out, vals => args.emit flavor n out vals
  | .text, c :: cs, out, vals =>
    if c = tokenSigil then args.scan flavor .sigil cs out vals
    else args.scan flavor .text cs (out.push c) vals
  | .sigil, c :: cs, out, vals =>
    if c.isDigit then args.scan flavor (.index (digitValue c)) cs out vals
    else .error .malformedToken
  | .index n, c :: cs, out, vals =>
    if c.isDigit then args.scan flavor (.index (10 * n + digitValue c)) cs out vals
    else
      match args.emit flavor n out vals with
      | .error e => .error e
      | .ok (out1, vals1) =>
        if c = tokenSigil then args.scan flavor .sigil cs out1 vals1
        else args.scan flavor .text cs (out1.push c) vals1

/-- Modelled from the spec: `Compile(text, flavor, initialArgs...)` (Go
`Args.CompileWithFlavor`): every synthetic token of `text` is replaced, in scan
order, by the flavor's placeholder, and the argument list is the initial
arguments followed by the values of the tokens in scan order. -/
def Args.CompileWithFlavor {α : Type} (args : Args α) (format : String) (flavor : Sqlbuilder.Flavor)
    (initialValue : List α) : Except CompileError (String × List α) :=
  args.scan flavor .text format.data "" initialValue

/-! ## `createtable.go` -/

def createTableMarkerInit : injectionMarker := 0

def createTableMarkerAfterCreate : injectionMarker := 1

def createTableMarkerAfterDefine : injectionMarker := 2

def createTableMarkerAfterOption : injectionMarker := 3

/-- Go `type CreateTableBuilder struct`.  The two pointer fields `args` and
`injection` are owned by the builder alone, so their targets are part of the
state. -/
structure CreateTableBuilder (α : Type) where
  verb : String
  ifNotExists : Bool
  table : String
  defs : List (List String)
  options : List (List String)
  args : Args α
  injection : injection
  marker : injectionMarker

/-- Go `func newCreateTableBuilder() *CreateTableBuilder`.  `zeroFlavor` is the
zero value of the Go type `Flavor`, which `&Args{}` leaves in the field
`Flavor`; the declaration of the type is not in the sources. -/
def newCreateTableBuilder {α : Type} (zeroFlavor : Flavor) : CreateTableBuilder α :=
  { verb := "CREATE TABLE"
    ifNotExists := false
    table := ""
    defs := []
    options := []
    args := { Flavor := zeroFlavor, values := [] }
    injection := newInjection
    marker := createTableMarkerInit }

/-- Modelled from the spec: `Flavor.NewCreateTableBuilder`, which the source
calls on `DefaultFlavor`: a new builder whose flavor is the receiver. -/
def Flavor.NewCreateTableBuilder {α : Type} (f : Flavor) (zeroFlavor : Flavor) :
    CreateTableBuilder α :=
  let ctb : CreateTableBuilder α := newCreateTableBuilder zeroFlavor
  { ctb with args := { ctb.args with Flavor := f } }

/-- Go `func NewCreateTableBuilder() *CreateTableBuilder`; the package variable
`DefaultFlavor` is a parameter. -/
def NewCreateTableBuilder {α : Type} (DefaultFlavor zeroFlavor : Flavor) : CreateTableBuilder α :=
  DefaultFlavor.NewCreateTableBuilder zeroFlavor

namespace CreateTableBuilder

variable {α : Type}

/-- Go `func (ctb *CreateTableBuilder) CreateTable(table string)`; the package
function `Escape` is a parameter. -/
def CreateTable (Escape : String → String) (ctb : CreateTableBuilder α) (table : String) :
    CreateTableBuilder α :=
  { ctb with table := Escape table, marker := createTableMarkerAfterCreate }

/-- Go `func (ctb *CreateTableBuilder) CreateTempTable(table string)`. -/
def CreateTempTable (Escape : String → String) (ctb : CreateTableBuilder α) (table : String) :
    CreateTableBuilder α :=
  { ctb with
    verb := "CREATE TEMPORARY TABLE"
    table := Escape table
    marker := createTableMarkerAfterCreate }

/-- Go `func (ctb *CreateTableBuilder) IfNotExists()`. -/
def IfNotExists (ctb : CreateTableBuilder α) : CreateTableBuilder α :=
  { ctb with ifNotExists := true }

/-- Go `func (ctb *CreateTableBuilder) Define(def ...string)`. -/
def Define (ctb : CreateTableBuilder α) (d : List String) : CreateTableBuilder α :=
  { ctb with defs := ctb.defs ++ [d], marker := createTableMarkerAfterDefine }

/-- The contents of `buf` when `BuildWithFlavor` reaches its `return`: the
statements of the body of the function, in order. -/
def BuildWithFlavor.buf (ctb : CreateTableBuilder α) : String :=
  let buf := ""
  let buf := ctb.injection.WriteTo buf createTableMarkerInit
  let buf := buf ++ ctb.verb
  let buf := if ctb.ifNotExists then buf ++ " IF NOT EXISTS" else buf
  let buf := buf.push ' '
  let buf := buf ++ ctb.table
  let buf := ctb.injection.WriteTo buf createTableMarkerAfterCreate
  let buf :=
    if ctb.defs.length > 0 then
      let buf := buf ++ " ("
      let defs := ctb.defs.map (fun d => strings.Join d " ")
      let buf := buf ++ strings.Join defs ", "
      let buf := buf.push ')'
      ctb.injection.WriteTo buf createTableMarkerAfterDefine
    else buf
  let buf :=
    if ctb.options.length > 0 then
      let buf := buf.push ' '
      let opts := ctb.options.map (fun opt => strings.Join opt " ")
      let buf := buf ++ strings.Join opts ", "
      ctb.injection.WriteTo buf createTableMarkerAfterOption
    else buf
  buf

/-- Go `func (ctb *CreateTableBuilder) BuildWithFlavor(flavor Flavor, initialArg
...interface{}) (sql string, args []interface{})`: the result of the call and
the builder after it.  No statement of the body assigns to a field of the
builder. -/
def BuildWithFlavor (ctb : CreateTableBuilder α) (flavor : Flavor) (initialArg : List α) :
    Except CompileError (String × List α) × CreateTableBuilder α :=
  (ctb.args.CompileWithFlavor (BuildWithFlavor.buf ctb) flavor initialArg, ctb)

/-- Go `func (ctb *CreateTableBuilder) Build() (sql string, args []interface{})`. -/
def Build (ctb : CreateTableBuilder α) : Except CompileError (String × List α) × CreateTableBuilder α :=
  ctb.BuildWithFlavor ctb.args.Flavor []

/-- Go `func (ctb *CreateTableBuilder) SetFlavor(flavor Flavor) (old Flavor)`. -/
def SetFlavor (ctb : CreateTableBuilder α) (flavor : Flavor) : Flavor × CreateTableBuilder α :=
  let old := ctb.args.Flavor
  (old, { ctb with args := { ctb.args with Flavor := flavor } })

/-- Go `func (ctb *CreateTableBuilder) Var(arg interface{}) string`. -/
def Var (ctb : CreateTableBuilder α) (arg : α) : String × CreateTableBuilder α :=
  let r := ctb.args.Add arg
  (r.1, { ctb with args := r.2 })

/-- Go `func (ctb *CreateTableBuilder) SQL(sql string)`. -/
def SQL (ctb : CreateTableBuilder α) (sql : String) : CreateTableBuilder α :=
  { ctb with injection := ctb.injection.SQL ctb.marker sql }

/-- The arguments that `PKColumn` passes to `Define`. -/
def PKColumn.props : List String :=
  let colName := "id"
  [colName, types.Bigserial, "PRIMARY KEY", "NOT NULL"]

/-- Go `func (ctb *CreateTableBuilder) PKColumn()`. -/
def PKColumn (ctb : CreateTableBuilder α) : CreateTableBuilder α :=
  ctb.Define PKColumn.props

end CreateTableBuilder

/-- Go `func singleTableName(s string) string`. -/
def singleTableName (s : String) : String :=
  if strings.HasSuffix s 's' then String.mk s.data.dropLast else s

namespace CreateTableBuilder

variable {α : Type}

/-- The slice `props` that `FKColumn` passes to `Define`.  The index expression
`strings.Split(completeTableName, ".")[1]` is a run-time panic (`none`) when
the split has fewer than two segments. -/
def FKColumn.props (completeTableName : String) (nullable : Bool) : Option (List String) :=
  match (strings.Split completeTableName '.')[1]? with
  | none => none
  | some tableName =>
    let tableName := singleTableName tableName
    let colName := tableName ++ "_id"
    let props := [colName, types.Bigserial]
    let props := if nullable == false then props ++ ["NOT NULL"] else props
    let props := props ++ ["REFERENCES", completeTableName ++ "(id)"]
    some props

/-- Go `func (ctb *CreateTableBuilder) FKColumn(completeTableName string,
nullable bool)`; `none` is the run-time panic of `FKColumn.props`. -/
def FKColumn (ctb : CreateTableBuilder α) (completeTableName : String) (nullable : Bool) :
    Option (CreateTableBuilder α) :=
  match FKColumn.props completeTableName nullable with
  | none => none
  | some props => some (ctb.Define props)

/-- The arguments that `CreatedColumn` passes to `Define`. -/
def CreatedColumn.props : List String :=
  ["created_at", types.Timestamptz, "NOT NULL", "DEFAULT NOW()"]

/-- Go `func (ctb *CreateTableBuilder) CreatedColumn()`. -/
def CreatedColumn (ctb : CreateTableBuilder α) : CreateTableBuilder α :=
  ctb.Define CreatedColumn.props

/-- The arguments that `UpdatedColumn` passes to `Define`. -/
def UpdatedColumn.props : List String :=
  ["updated_at", types.Timestamptz, "NOT NULL", "DEFAULT NOW()"]

/-- Go `func (ctb *CreateTableBuilder) UpdatedColumn()`. -/
def UpdatedColumn (ctb : CreateTableBuilder α) : CreateTableBuilder α :=
  ctb.Define UpdatedColumn.props

/-- The arguments that `DeletedColumn` passes to `Define`. -/
def DeletedColumn.props : List String :=
  ["deleted_at", types.Timestamptz, "NULL"]

/-- Go `func (ctb *CreateTableBuilder) DeletedColumn()`. -/
def DeletedColumn (ctb : CreateTableBuilder α) : CreateTableBuilder α :=
  ctb.Define DeletedColumn.props

/-- The slice `props` that `Column` passes to `Define`. -/
def Column.props (colName : String) (colType : types.ColType) (nullable : Bool) : List String :=
  let props := [colName, colType]
  if nullable then props ++ ["NULL"] else props ++ ["NOT NULL"]

/-- Go `func (ctb *CreateTableBuilder) Column(colName string, colType
types.ColType, nullable bool)`. -/
def Column (ctb : CreateTableBuilder α) (colName : String) (colType : types.ColType)
    (nullable : Bool) : CreateTableBuilder α :=
  ctb.Define (Column.props colName colType nullable)

/-! The methods `Option` and `String` come last in this namespace: once they are
declared, the names of the two types are hidden inside it. -/

/-- Go `func (ctb *CreateTableBuilder) Option(opt ...string)`. -/
def Option (ctb : CreateTableBuilder α) (opt : List String) : CreateTableBuilder α :=
  { ctb with options := ctb.options ++ [opt], marker := createTableMarkerAfterOption }

/-- Go `func (ctb *CreateTableBuilder) String() string`: `Build` with the
arguments dropped. -/
def String (ctb : CreateTableBuilder α) : Except CompileError String × CreateTableBuilder α :=
  match ctb.Build with
  | (.ok (s, _), ctb1) => (.ok s, ctb1)
  | (.error e, ctb1) => (.error e, ctb1)

end CreateTableBuilder

/-- Go `func CreateTable(table string) *CreateTableBuilder` of the package. -/
def CreateTable {α : Type} (Escape : String → String) (DefaultFlavor zeroFlavor : Flavor)
    (table : String) : CreateTableBuilder α :=
  (DefaultFlavor.NewCreateTableBuilder zeroFlavor).CreateTable Escape table

/-! ## Sequences of calls on one builder -/

/-- One call of a public method of `CreateTableBuilder`. -/
inductive Op (α : Type) where
  | CreateTable (table : String)
  | CreateTempTable (table : String)
  | IfNotExists
  | Define (d : List String)
  | SQL (sql : String)
  | Var (arg : α)
  | SetFlavor (flavor : Flavor)
  | BuildWithFlavor (flavor : Flavor) (initialArg : List α)
  | Build
  | PKColumn
  | FKColumn (completeTableName : String) (nullable : Bool)
  | CreatedColumn
  | UpdatedColumn
  | DeletedColumn
  | Column (colName : String) (colType : types.ColType) (nullable : Bool)
  | String
  | Option (opt : List String)

/-- The builder after one call; `none` when the call panics.  A failed
compilation is a result of the call and leaves the builder in place. -/
def applyOp {α : Type} (Escape : String → String) :
    Op α → CreateTableBuilder α → Option (CreateTableBuilder α)
  | .CreateTable table, ctb => some (ctb.CreateTable Escape table)
  | .CreateTempTable table, ctb => some (ctb.CreateTempTable Escape table)
  | .IfNotExists, ctb => some ctb.IfNotExists
  | .Define d, ctb => some (ctb.Define d)
  | .SQL sql, ctb => some (ctb.SQL sql)
  | .Var arg, ctb => some (ctb.Var arg).2
  | .SetFlavor flavor, ctb => some (ctb.SetFlavor flavor).2
  | .BuildWithFlavor flavor initialArg, ctb => some (ctb.BuildWithFlavor flavor initialArg).2
  | .Build, ctb => some ctb.Build.2
  | .PKColumn, ctb => some ctb.PKColumn
  | .FKColumn completeTableName nullable, ctb => ctb.FKColumn completeTableName nullable
  | .CreatedColumn, ctb => some ctb.CreatedColumn
  | .UpdatedColumn, ctb => some ctb.UpdatedColumn
  | .DeletedColumn, ctb => some ctb.DeletedColumn
  | .Column colName colType nullable, ctb => some (ctb.Column colName colType nullable)
  | .String, ctb => some ctb.String.2
  | .Option opt, ctb => some (ctb.Option opt)

/-- The builder after a sequence of calls, first call first. -/
def runOps {α : Type} (Escape : String → String) :
    List (Op α) → CreateTableBuilder α → Option (CreateTableBuilder α)
  | [], ctb => some ctb
  | op :: ops, ctb =>
    match applyOp Escape op ctb with
    | none => none
    | some ctb1 => runOps Escape ops ctb1

/-- A builder state that some sequence of public calls produces from a new
builder. -/
def Reachable {α : Type} (Escape : String → String) (ctb : CreateTableBuilder α) : Prop :=
  ∃ (DefaultFlavor zeroFlavor : Flavor) (ops : List (Op α)),
    runOps Escape ops (NewCreateTableBuilder DefaultFlavor zeroFlavor) = some ctb

/-! ## The grammar of the statement, in the words of the specification -/

/-- The definitions clause: nothing for no group, otherwise the groups, each
joined by a space, joined by a comma and a space, in one pair of parentheses
after a space. -/
def definitionsClause (defs : List (List String)) : String :=
  match defs with
  | [] => ""
  | _ => " (" ++ strings.Join (defs.map (fun d => strings.Join d " ")) ", " ++ ")"

/-- The options clause: nothing for no group, otherwise a space and the
groups, each joined by a space, joined by a comma and a space. -/
def optionsClause (options : List (List String)) : String :=
  match options with
  | [] => ""
  | _ => " " ++ strings.Join (options.map (fun opt => strings.Join opt " ")) ", "

/-- The optional modifier after the verb. -/
def modifierText (ifNotExists : Bool) : String :=
  if ifNotExists then " IF NOT EXISTS" else ""

/-- The statement text in the fixed order of the grammar, every marker
flushed unconditionally. -/
def grammarText {α : Type} (ctb : CreateTableBuilder α) : String :=
  ctb.injection.flush createTableMarkerInit
    ++ ctb.verb
    ++ modifierText ctb.ifNotExists
    ++ " "
    ++ ctb.table
    ++ ctb.injection.flush createTableMarkerAfterCreate
    ++ definitionsClause ctb.defs
    ++ ctb.injection.flush createTableMarkerAfterDefine
    ++ optionsClause ctb.options
    ++ ctb.injection.flush createTableMarkerAfterOption

/-- What a flush writes for a given list of queued entries. -/
def flushText : List String → String
  | [] => ""
  | sqls => " " ++ strings.Join sqls " "

/-- The marker that follows the clause a call completes; calls that complete
no clause leave the cursor where it is. -/
def markerAfter {α : Type} : Op α → injectionMarker → injectionMarker
  | .CreateTable _, _ => createTableMarkerAfterCreate
  | .CreateTempTable _, _ => createTableMarkerAfterCreate
  | .Define _, _ => createTableMarkerAfterDefine
  | .PKColumn, _ => createTableMarkerAfterDefine
  | .FKColumn _ _, _ => createTableMarkerAfterDefine
  | .CreatedColumn, _ => createTableMarkerAfterDefine
  | .UpdatedColumn, _ => createTableMarkerAfterDefine
  | .DeletedColumn, _ => createTableMarkerAfterDefine
  | .Column _ _ _, _ => createTableMarkerAfterDefine
  | .Option _, _ => createTableMarkerAfterOption
  | _, m => m

/-- The raw SQL strings that the `SQL` calls of a sequence of calls queue at
marker `m`, in call order; `cur` is the cursor before the first call. -/
def queuedAt {α : Type} (m : injectionMarker) : List (Op α) → injectionMarker → List String
  | [], _ => []
  | .SQL sql :: ops, cur => if cur = m then sql :: queuedAt m ops cur else queuedAt m ops cur
  | op :: ops, cur => queuedAt m ops (markerAfter op cur)

/-- The token lists of the `Define` calls of a sequence of calls, in call
order; a column helper is the `Define` call it makes. -/
def definesOf {α : Type} : List (Op α) → List (List String)
  | [] => []
  | .Define d :: ops => d :: definesOf ops
  | .PKColumn :: ops => CreateTableBuilder.PKColumn.props :: definesOf ops
  | .FKColumn completeTableName nullable :: ops =>
    (CreateTableBuilder.FKColumn.props completeTableName nullable).toList ++ definesOf ops
  | .CreatedColumn :: ops => CreateTableBuilder.CreatedColumn.props :: definesOf ops
  | .UpdatedColumn :: ops => CreateTableBuilder.UpdatedColumn.props :: definesOf ops
  | .DeletedColumn :: ops => CreateTableBuilder.DeletedColumn.props :: definesOf ops
  | .Column colName colType nullable :: ops =>
    CreateTableBuilder.Column.props colName colType nullable :: definesOf ops
  | _ :: ops => definesOf ops

/-- The token lists of the `Option` calls of a sequence of calls, in call
order. -/
def optionsOf {α : Type} : List (Op α) → List (List String)
  | [] => []
  | .Option opt :: ops => opt :: optionsOf ops
  | _ :: ops => optionsOf ops

/-- The calls that set the target: `CreateTable` and `CreateTempTable`. -/
def Op.isCreate {α : Type} : Op α → Bool
  | .CreateTable _ => true
  | .CreateTempTable _ => true
  | _ => false

/-- The calls that change the verb: `CreateTempTable`. -/
def Op.isCreateTemp {α : Type} : Op α → Bool
  | .CreateTempTable _ => true
  | _ => false

/-- The verb after a sequence of calls on a new builder. -/
def verbAfter {α : Type} (ops : List (Op α)) : String :=
  if ops.any Op.isCreateTemp then "CREATE TEMPORARY TABLE" else "CREATE TABLE"

/-- The invariant of the builder that makes the two conditional flushes of
`BuildWithFlavor` lose nothing: while a clause list is empty, nothing is queued
at the marker after that clause and the cursor is not at it. -/
def ClauseInvariant {α : Type} (ctb : CreateTableBuilder α) : Prop :=
  (ctb.defs = [] →
      ctb.injection.markerSQLs createTableMarkerAfterDefine = []
        ∧ ctb.marker ≠ createTableMarkerAfterDefine)
    ∧ (ctb.options = [] →
      ctb.injection.markerSQLs createTableMarkerAfterOption = []
        ∧ ctb.marker ≠ createTableMarkerAfterOption)

/-! ## Texts with synthetic tokens, in the words of the specification -/

/-- The number written by a run of decimal digits, most significant first,
after the digits that gave `acc`. -/
def decimalValue (acc : Nat) : List Char → Nat
  | [] => acc
  | c :: cs => decimalValue (10 * acc + digitValue c) cs

/-- One occurrence of a synthetic token in a text, given by the digits after
the sigil, and the plain text between it and the next token. -/
structure TokenSegment where
  digits : List Char
  lit : List Char

/-- The token has at least one digit and only digits, and the plain text after
it has no sigil and does not go on with a digit. -/
def TokenSegment.WellFormed (s : TokenSegment) : Prop :=
  s.digits ≠ [] ∧ (∀ c ∈ s.digits, c.isDigit = true) ∧ tokenSigil ∉ s.lit
    ∧ (∀ c ∈ s.lit.head?, c.isDigit = false)

/-- The text made of the plain text `lit0` followed by the given token
occurrences, each written as the sigil and its digits and followed by its
plain text. -/
def skeletonChars (lit0 : List Char) : List TokenSegment → List Char
  | [] => lit0
  | s :: segs => lit0 ++ tokenSigil :: s.digits ++ skeletonChars s.lit segs

/-- The same text with the token occurrences replaced, left to right, by the
placeholders of the ordinals `k + 1`, `k + 2`, and so on. -/
def renderedText (flavor : Flavor) (k : Nat) (lit0 : List Char) : List TokenSegment → String
  | [] => String.mk lit0
  | s :: segs =>
    String.mk lit0 ++ flavor.RenderPlaceholder (k + 1) ++ renderedText flavor (k + 1) s.lit segs

/-- The value that one call registers: the argument of a `Var` call. -/
def registeredBy {α : Type} : Op α → List α
  | .Var arg => [arg]
  | _ => []

/-- The registrations made by the `Var` calls of a sequence of calls, in call
order: the token each call returned and the value it was given. -/
def varLog {α : Type} (Escape : String → String) :
    List (Op α) → CreateTableBuilder α → List (String × α)
  | [], _ => []
  | op :: ops, ctb =>
    (match op with
      | .Var arg => [((ctb.Var arg).1, arg)]
      | _ => [])
    ++ (match applyOp Escape op ctb with
      | none => []
      | some ctb1 => varLog Escape ops ctb1)

/-- Placeholder and argument correspond: there is one argument for each token
occurrence, and the argument of an occurrence is the value that was registered
for the token standing there. -/
def Corresponds {α : Type} (log : List (String × α)) (segs : List TokenSegment)
    (args : List α) : Prop :=
  args.length = segs.length
    ∧ ∀ (i : Nat) (hi : i < segs.length) (token : String) (v : α),
        (token, v) ∈ log → token.data = tokenSigil :: (segs.get ⟨i, hi⟩).digits →
          args[i]? = some v

/-- Placeholder and argument correspond after initial arguments: the argument
list is the initial arguments followed by one argument for each token
occurrence, and the argument of an occurrence is the value that was registered
for the token standing there. -/
def CorrespondsAfter {α : Type} (log : List (String × α)) (initialArg : List α)
    (segs : List TokenSegment) (args : List α) : Prop :=
  args.length = initialArg.length + segs.length
    ∧ args.take initialArg.length = initialArg
    ∧ ∀ (i : Nat) (hi : i < segs.length) (token : String) (v : α),
        (token, v) ∈ log → token.data = tokenSigil :: (segs.get ⟨i, hi⟩).digits →
          args[initialArg.length + i]? = some v

/-! ## Concrete flavors and call sequences for the examples -/

/-- A flavor that renders every placeholder as a question mark. -/
def questionFlavor : Flavor :=
  { RenderPlaceholder := fun _ => "?", QuoteIdentifier := fun name => name }

/-- A flavor that renders the placeholder of ordinal `k` as a colon and `k`. -/
def ordinalFlavor : Flavor :=
  { RenderPlaceholder := fun k => ":" ++ toString k, QuoteIdentifier := fun name => name }

/-- The calls of the interleaving example: `Define`, `SQL(a)`, `Option`,
`SQL(b)`, `Define`, `SQL(c)` after the target is set. -/
def interleavedOps : List (Op Nat) :=
  [.CreateTable "t", .Define ["d1"], .SQL "a", .Option ["o"], .SQL "b", .Define ["d2"], .SQL "c"]

/-- Calls with two registered values, used in the reverse order of their
registration. -/
def registeringOps : List (Op Nat) :=
  [.CreateTable "t", .Var 7, .Var 9, .Define ["a", "int", "DEFAULT", "$1"], .SQL "b = $0"]

/-- The builder after `registeringOps`. -/
def registeringBuilder : CreateTableBuilder Nat :=
  (((((NewCreateTableBuilder questionFlavor questionFlavor).CreateTable id "t").Var 7).2.Var
    9).2.Define ["a", "int", "DEFAULT", "$1"]).SQL "b = $0"

/-- The builder after `interleavedOps`. -/
def interleavedBuilder : CreateTableBuilder Nat :=
  (((((((NewCreateTableBuilder questionFlavor questionFlavor).CreateTable id "t").Define
    ["d1"]).SQL "a").Option ["o"]).SQL "b").Define ["d2"]).SQL "c"

/-! ## Foreign-key column names, in the words of the claims -/

/-- The second of the segments that the dots of a name separate: the
characters after the first dot, up to the next dot. -/
def secondSegment (name : List Char) : List Char :=
  ((name.dropWhile (fun c => c != '.')).drop 1).takeWhile (fun c => c != '.')

/-- A segment with exactly one trailing `s` removed if it has one. -/
def withoutTrailingS (seg : List Char) : List Char :=
  if seg.getLast? = some 's' then seg.dropLast else seg

/-- The column name that a foreign key to the table of the given qualified
name gets: its second segment without one trailing `s`, followed by `_id`. -/
def foreignKeyColumn (completeTableName : String) : String :=
  String.mk (withoutTrailingS (secondSegment completeTableName.data)) ++ "_id"

/-- The four markers of the CREATE TABLE builder, in the order of the
grammar. -/
def createTableMarkers : List injectionMarker :=
  [createTableMarkerInit, createTableMarkerAfterCreate, createTableMarkerAfterDefine,
    createTableMarkerAfterOption]

/-- An escaping function that doubles every dollar sign: one possible value of
the parameter `Escape`, for the examples. -/
def doublingEscape (s : String) : String :=
  String.mk (s.data.flatMap (fun c => if c = '$' then ['$', '$'] else [c]))

/-- The builder after `CreateTable` with a table name that holds a dollar
sign, escaped by `doublingEscape`. -/
def dollarTableBuilder : CreateTableBuilder Nat :=
  (NewCreateTableBuilder questionFlavor questionFlavor).CreateTable doublingEscape "a$b"

/-- The same builder with the identity as `Escape`. -/
def rawDollarTableBuilder : CreateTableBuilder Nat :=
  (NewCreateTableBuilder questionFlavor questionFlavor).CreateTable id "a$b"

/-! ## Auxiliary facts -/

theorem push_eq_append (s : String) (c : Char) : s.push c = s ++ String.singleton c := by
  apply String.ext
  simp [String.data_append]

theorem singleton_space : String.singleton ' ' = " " := rfl

theorem singleton_close : String.singleton ')' = ")" := rfl

theorem flush_eq_flushText (inj : injection) (m : injectionMarker) :
    inj.flush m = flushText (inj.markerSQLs m) := by
  unfold injection.flush flushText
  cases inj.markerSQLs m <;> rfl

theorem flush_of_nil (inj : injection) (m : injectionMarker) (h : inj.markerSQLs m = []) :
    inj.flush m = "" := by
  simp [injection.flush, h]

theorem String_snd {α : Type} (ctb : CreateTableBuilder α) : ctb.String.2 = ctb := by
  unfold CreateTableBuilder.String
  have h : ctb.Build.2 = ctb := rfl
  split <;> rename_i heq <;> rw [heq] at h <;> exact h

/-! ### The clause invariant holds in every reachable state -/

theorem clauseInvariant_new {α : Type} (D z : Flavor) :
    ClauseInvariant (NewCreateTableBuilder D z : CreateTableBuilder α) := by
  simp [ClauseInvariant, NewCreateTableBuilder, Flavor.NewCreateTableBuilder,
    newCreateTableBuilder, newInjection, createTableMarkerInit, createTableMarkerAfterDefine,
    createTableMarkerAfterOption]

theorem clauseInvariant_define {α : Type} (ctb : CreateTableBuilder α) (d : List String)
    (h : ClauseInvariant ctb) : ClauseInvariant (ctb.Define d) := by
  obtain ⟨_, h2⟩ := h
  refine ⟨by simp [CreateTableBuilder.Define], ?_⟩
  intro ho
  have := h2 ho
  simpa [CreateTableBuilder.Define, createTableMarkerAfterDefine, createTableMarkerAfterOption]
    using this.1

theorem clauseInvariant_applyOp {α : Type} (Escape : String → String) (op : Op α)
    (ctb c : CreateTableBuilder α) (h : ClauseInvariant ctb) (hc : applyOp Escape op ctb = some c) :
    ClauseInvariant c := by
  cases op <;> simp only [applyOp, Option.some.injEq] at hc
  case FKColumn n b =>
    unfold CreateTableBuilder.FKColumn at hc
    split at hc
    · simp at hc
    · simp only [Option.some.injEq] at hc
      subst hc
      exact clauseInvariant_define _ _ h
  case Define d => subst hc; exact clauseInvariant_define _ _ h
  case PKColumn => subst hc; exact clauseInvariant_define _ _ h
  case CreatedColumn => subst hc; exact clauseInvariant_define _ _ h
  case UpdatedColumn => subst hc; exact clauseInvariant_define _ _ h
  case DeletedColumn => subst hc; exact clauseInvariant_define _ _ h
  case Column a b c => subst hc; exact clauseInvariant_define _ _ h
  case Option opt =>
    subst hc
    obtain ⟨h1, _⟩ := h
    refine ⟨?_, by simp [CreateTableBuilder.Option]⟩
    intro hd
    have := h1 hd
    simpa [CreateTableBuilder.Option, createTableMarkerAfterDefine, createTableMarkerAfterOption]
      using this.1
  case SQL sql =>
    subst hc
    obtain ⟨h1, h2⟩ := h
    constructor
    · intro hd
      have := h1 hd
      simp only [CreateTableBuilder.SQL, injection.SQL]
      refine ⟨?_, this.2⟩
      rw [if_neg (Ne.symm this.2)]
      exact this.1
    · intro hd
      have := h2 hd
      simp only [CreateTableBuilder.SQL, injection.SQL]
      refine ⟨?_, this.2⟩
      rw [if_neg (Ne.symm this.2)]
      exact this.1
  case String => subst hc; rw [String_snd]; exact h
  all_goals
    subst hc
    first
    | exact h
    | (obtain ⟨h1, h2⟩ := h
       constructor
       · intro hd
         have := h1 hd
         simpa [CreateTableBuilder.CreateTable, CreateTableBuilder.CreateTempTable,
           createTableMarkerAfterCreate, createTableMarkerAfterDefine] using this.1
       · intro hd
         have := h2 hd
         simpa [CreateTableBuilder.CreateTable, CreateTableBuilder.CreateTempTable,
           createTableMarkerAfterCreate, createTableMarkerAfterOption] using this.1)

theorem clauseInvariant_runOps {α : Type} (Escape : String → String) (ops : List (Op α)) :
    ∀ (ctb c : CreateTableBuilder α), ClauseInvariant ctb → runOps Escape ops ctb = some c →
      ClauseInvariant c := by
  induction ops with
  | nil =>
    intro ctb c h hc
    simp only [runOps, Option.some.injEq] at hc
    exact hc ▸ h
  | cons op ops ih =>
    intro ctb c h hc
    simp only [runOps] at hc
    split at hc
    · simp at hc
    · rename_i c1 h1
      exact ih c1 c (clauseInvariant_applyOp Escape op ctb c1 h h1) hc

theorem clauseInvariant_of_reachable {α : Type} (Escape : String → String)
    (ctb : CreateTableBuilder α) (h : Reachable Escape ctb) : ClauseInvariant ctb := by
  obtain ⟨D, z, ops, hops⟩ := h
  exact clauseInvariant_runOps Escape ops _ ctb (clauseInvariant_new D z) hops

/-! ### The buffer of `BuildWithFlavor` -/

/-- The buffer as the code writes it: the flushes after the two clauses sit
inside the branches of the non-empty clauses. -/
theorem buf_eq_branches {α : Type} (ctb : CreateTableBuilder α) :
    CreateTableBuilder.BuildWithFlavor.buf ctb
      = ctb.injection.flush createTableMarkerInit ++ ctb.verb ++ modifierText ctb.ifNotExists
          ++ " " ++ ctb.table ++ ctb.injection.flush createTableMarkerAfterCreate
          ++ (if ctb.defs = [] then ""
              else definitionsClause ctb.defs ++ ctb.injection.flush createTableMarkerAfterDefine)
          ++ (if ctb.options = [] then ""
              else optionsClause ctb.options
                ++ ctb.injection.flush createTableMarkerAfterOption) := by
  unfold CreateTableBuilder.BuildWithFlavor.buf injection.WriteTo
  cases hd : ctb.defs <;> cases ho : ctb.options <;> cases ctb.ifNotExists <;>
    simp [definitionsClause, optionsClause, modifierText, push_eq_append, singleton_space,
      singleton_close, String.append_assoc]

theorem buf_eq_grammarText {α : Type} (ctb : CreateTableBuilder α) (h : ClauseInvariant ctb) :
    CreateTableBuilder.BuildWithFlavor.buf ctb = grammarText ctb := by
  obtain ⟨h1, h2⟩ := h
  rw [buf_eq_branches]
  unfold grammarText
  cases hd : ctb.defs with
  | nil =>
    rw [flush_of_nil _ _ (h1 hd).1]
    cases ho : ctb.options with
    | nil =>
      rw [flush_of_nil _ _ (h2 ho).1]
      simp [definitionsClause, optionsClause, String.append_assoc]
    | cons o os => simp [definitionsClause, String.append_assoc]
  | cons d ds =>
    cases ho : ctb.options with
    | nil =>
      rw [flush_of_nil _ _ (h2 ho).1]
      simp [optionsClause, String.append_assoc]
    | cons o os => simp [String.append_assoc]

/-! ### Compilation of a text without the sigil -/

theorem scan_text_of_no_sigil {α : Type} (args : Args α) (flavor : Flavor) (cs : List Char) :
    tokenSigil ∉ cs → ∀ (out : String) (vals : List α),
      args.scan flavor .text cs out vals = .ok (out ++ String.mk cs, vals) := by
  induction cs with
  | nil =>
    intro _ out vals
    have : out ++ String.mk [] = out := by apply String.ext; simp [String.data_append]
    simp [Args.scan, this]
  | cons c cs ih =>
    intro h out vals
    have hc : c ≠ tokenSigil := fun e => h (by simp [e])
    have hcs : tokenSigil ∉ cs := fun e => h (by simp [e])
    have : out.push c ++ String.mk cs = out ++ String.mk (c :: cs) := by
      apply String.ext; simp [String.data_append]
    simp only [Args.scan, if_neg hc, ih hcs, this]

theorem CompileWithFlavor_of_no_sigil {α : Type} (args : Args α) (format : String)
    (flavor : Flavor) (initialValue : List α) (h : tokenSigil ∉ format.data) :
    args.CompileWithFlavor format flavor initialValue = .ok (format, initialValue) := by
  unfold Args.CompileWithFlavor
  rw [scan_text_of_no_sigil args flavor format.data h]
  have : "" ++ String.mk format.data = format := by apply String.ext; simp [String.data_append]
  rw [this]

theorem BuildWithFlavor_of_no_sigil {α : Type} (ctb : CreateTableBuilder α) (flavor : Flavor)
    (initialArg : List α)
    (h : tokenSigil ∉ (CreateTableBuilder.BuildWithFlavor.buf ctb).data) :
    (ctb.BuildWithFlavor flavor initialArg).1
      = .ok (CreateTableBuilder.BuildWithFlavor.buf ctb, initialArg) := by
  unfold CreateTableBuilder.BuildWithFlavor
  exact CompileWithFlavor_of_no_sigil ctb.args _ flavor initialArg h

/-! ## C1: the order of assembly -/

/-- C1: in every builder state reachable from a new builder by public calls,
the text that `BuildWithFlavor` hands to the argument compiler is the
concatenation of flush(Init), the verb, the optional modifier, one space, the
escaped table name, flush(AfterTarget), the definitions clause,
flush(AfterDefinitions), the options clause and flush(AfterOptions), every
marker being flushed unconditionally; the result of the call is the
compilation of that text. -/
theorem C1_assembly_order {α : Type} (Escape : String → String) (ctb : CreateTableBuilder α)
    (h : Reachable Escape ctb) (flavor : Flavor) (initialArg : List α) :
    CreateTableBuilder.BuildWithFlavor.buf ctb
        = ctb.injection.flush createTableMarkerInit
            ++ ctb.verb
            ++ (if ctb.ifNotExists then " IF NOT EXISTS" else "")
            ++ " "
            ++ ctb.table
            ++ ctb.injection.flush createTableMarkerAfterCreate
            ++ definitionsClause ctb.defs
            ++ ctb.injection.flush createTableMarkerAfterDefine
            ++ optionsClause ctb.options
            ++ ctb.injection.flush createTableMarkerAfterOption
      ∧ (ctb.BuildWithFlavor flavor initialArg).1
        = ctb.args.CompileWithFlavor
            (ctb.injection.flush createTableMarkerInit
              ++ ctb.verb
              ++ (if ctb.ifNotExists then " IF NOT EXISTS" else "")
              ++ " "
              ++ ctb.table
              ++ ctb.injection.flush createTableMarkerAfterCreate
              ++ definitionsClause ctb.defs
              ++ ctb.injection.flush createTableMarkerAfterDefine
              ++ optionsClause ctb.options
              ++ ctb.injection.flush createTableMarkerAfterOption)
            flavor initialArg := by
  have hbuf := buf_eq_grammarText ctb (clauseInvariant_of_reachable Escape ctb h)
  unfold grammarText modifierText at hbuf
  refine ⟨hbuf, ?_⟩
  unfold CreateTableBuilder.BuildWithFlavor
  rw [hbuf]

theorem interleavedBuilder_reachable : Reachable id interleavedBuilder :=
  ⟨questionFlavor, questionFlavor, interleavedOps, rfl⟩

/-- C1 at the builder of the interleaving example. -/
theorem C1_assembly_order_witness :
    Reachable id interleavedBuilder
      ∧ CreateTableBuilder.BuildWithFlavor.buf interleavedBuilder
        = interleavedBuilder.injection.flush createTableMarkerInit
            ++ interleavedBuilder.verb
            ++ (if interleavedBuilder.ifNotExists then " IF NOT EXISTS" else "")
            ++ " "
            ++ interleavedBuilder.table
            ++ interleavedBuilder.injection.flush createTableMarkerAfterCreate
            ++ definitionsClause interleavedBuilder.defs
            ++ interleavedBuilder.injection.flush createTableMarkerAfterDefine
            ++ optionsClause interleavedBuilder.options
            ++ interleavedBuilder.injection.flush createTableMarkerAfterOption :=
  ⟨interleavedBuilder_reachable,
    (C1_assembly_order id interleavedBuilder interleavedBuilder_reachable questionFlavor []).1⟩

/-! ## C2: the scenario of the specification -/

set_option maxRecDepth 100000 in
/-- C2: the builder made by `CreateTable("public.users")`, two `Define` calls
and one `Option` call builds, with any flavor and through `Build`, to the text
of the specification and an empty argument list, for every `Escape` that
leaves the name `public.users` as it is. -/
theorem C2_public_users_scenario {α : Type} (Escape : String → String)
    (DefaultFlavor zeroFlavor flavor : Flavor)
    (hEscape : Escape "public.users" = "public.users") :
    (((((CreateTable Escape DefaultFlavor zeroFlavor "public.users" : CreateTableBuilder α).Define
              ["id", "bigserial", "PRIMARY KEY", "NOT NULL"]).Define
            ["name", "varchar", "NOT NULL"]).Option
          ["ENGINE=InnoDB"]).BuildWithFlavor flavor []).1
        = .ok ("CREATE TABLE public.users (id bigserial PRIMARY KEY NOT NULL, name varchar NOT NULL) ENGINE=InnoDB", [])
      ∧ ((((CreateTable Escape DefaultFlavor zeroFlavor "public.users" : CreateTableBuilder α).Define
              ["id", "bigserial", "PRIMARY KEY", "NOT NULL"]).Define
            ["name", "varchar", "NOT NULL"]).Option
          ["ENGINE=InnoDB"]).Build.1
        = .ok ("CREATE TABLE public.users (id bigserial PRIMARY KEY NOT NULL, name varchar NOT NULL) ENGINE=InnoDB", []) := by
  simp only [CreateTable, CreateTableBuilder.CreateTable, hEscape]
  exact ⟨rfl, rfl⟩

/-- C2 with the identity as `Escape`. -/
theorem C2_public_users_scenario_witness :
    (fun s : String => s) "public.users" = "public.users"
      ∧ (((((CreateTable (fun s => s) questionFlavor questionFlavor "public.users" :
                CreateTableBuilder Nat).Define
              ["id", "bigserial", "PRIMARY KEY", "NOT NULL"]).Define
            ["name", "varchar", "NOT NULL"]).Option
          ["ENGINE=InnoDB"]).BuildWithFlavor ordinalFlavor []).1
        = .ok ("CREATE TABLE public.users (id bigserial PRIMARY KEY NOT NULL, name varchar NOT NULL) ENGINE=InnoDB", []) :=
  ⟨rfl, (C2_public_users_scenario (fun s => s) questionFlavor questionFlavor ordinalFlavor rfl).1⟩

/-! ### Decimal tokens -/

theorem digitValue_digitChar (k : Nat) (h : k < 10) : digitValue (Nat.digitChar k) = k := by
  interval_cases k <;> rfl

theorem isDigit_digitChar (k : Nat) (h : k < 10) : (Nat.digitChar k).isDigit = true := by
  interval_cases k <;> rfl

theorem decimalValue_nil (acc : Nat) : decimalValue acc [] = acc := rfl

theorem decimalValue_cons (acc : Nat) (c : Char) (cs : List Char) :
    decimalValue acc (c :: cs) = decimalValue (10 * acc + digitValue c) cs := rfl

theorem decimalValue_append (acc : Nat) (ds rest : List Char) :
    decimalValue acc (ds ++ rest) = decimalValue (decimalValue acc ds) rest := by
  induction ds generalizing acc with
  | nil => rfl
  | cons d ds ih => exact ih (10 * acc + digitValue d)

theorem toDigitsCore_succ (fuel n : Nat) (ds : List Char) :
    Nat.toDigitsCore 10 (fuel + 1) n ds
      = if n / 10 = 0 then Nat.digitChar (n % 10) :: ds
        else Nat.toDigitsCore 10 fuel (n / 10) (Nat.digitChar (n % 10) :: ds) := rfl

theorem toDigitsCore_spec (fuel : Nat) :
    ∀ (n : Nat) (ds : List Char), n < fuel →
      ∃ front : List Char, Nat.toDigitsCore 10 fuel n ds = front ++ ds
        ∧ front ≠ [] ∧ (∀ c ∈ front, c.isDigit = true) ∧ decimalValue 0 front = n := by
  induction fuel with
  | zero => intro n ds h; omega
  | succ fuel ih =>
    intro n ds h
    have hmod : n % 10 < 10 := Nat.mod_lt n (by decide)
    have hv := digitValue_digitChar _ hmod
    have hg := isDigit_digitChar _ hmod
    rw [toDigitsCore_succ]
    generalize Nat.digitChar (n % 10) = d at hv hg
    by_cases h0 : n / 10 = 0
    · rw [if_pos h0]
      refine ⟨[d], rfl, List.cons_ne_nil _ _, ?_, ?_⟩
      · intro c hc
        rw [List.mem_singleton] at hc
        rw [hc]
        exact hg
      · rw [decimalValue_cons, decimalValue_nil, hv]
        omega
    · rw [if_neg h0]
      have hlt : n / 10 < fuel := by omega
      obtain ⟨front, h1, _, h3, h4⟩ := ih (n / 10) (d :: ds) hlt
      refine ⟨front ++ [d], ?_, ?_, ?_, ?_⟩
      · rw [h1, List.append_assoc]; rfl
      · intro e
        have := congrArg List.length e
        simp at this
      · intro c hc
        rw [List.mem_append, List.mem_singleton] at hc
        rcases hc with hc | hc
        · exact h3 c hc
        · rw [hc]; exact hg
      · rw [decimalValue_append, h4, decimalValue_cons, decimalValue_nil, hv]
        omega

theorem toDigits_spec (n : Nat) :
    Nat.toDigits 10 n ≠ [] ∧ (∀ c ∈ Nat.toDigits 10 n, c.isDigit = true)
      ∧ decimalValue 0 (Nat.toDigits 10 n) = n := by
  obtain ⟨front, h1, h2, h3, h4⟩ := toDigitsCore_spec (n + 1) n [] (Nat.lt_succ_self n)
  have : Nat.toDigits 10 n = front := by
    unfold Nat.toDigits
    rw [h1, List.append_nil]
  rw [this]
  exact ⟨h2, h3, h4⟩

theorem tokenOf_data (n : Nat) : (tokenOf n).data = tokenSigil :: Nat.toDigits 10 n := by
  unfold tokenOf
  rw [String.data_append]
  rfl

/-! ### The scan of `Compile`, run by run -/

theorem scan_text_cons {α : Type} (args : Args α) (flavor : Flavor) (c : Char) (cs : List Char)
    (out : String) (vals : List α) :
    args.scan flavor .text (c :: cs) out vals
      = if c = tokenSigil then args.scan flavor .sigil cs out vals
        else args.scan flavor .text cs (out.push c) vals := rfl

theorem scan_sigil_cons {α : Type} (args : Args α) (flavor : Flavor) (c : Char) (cs : List Char)
    (out : String) (vals : List α) :
    args.scan flavor .sigil (c :: cs) out vals
      = if c.isDigit then args.scan flavor (.index (digitValue c)) cs out vals
        else .error .malformedToken := rfl

theorem scan_index_cons {α : Type} (args : Args α) (flavor : Flavor) (n : Nat) (c : Char)
    (cs : List Char) (out : String) (vals : List α) :
    args.scan flavor (.index n) (c :: cs) out vals
      = if c.isDigit then args.scan flavor (.index (10 * n + digitValue c)) cs out vals
        else
          match args.emit flavor n out vals with
          | .error e => .error e
          | .ok (out1, vals1) =>
            if c = tokenSigil then args.scan flavor .sigil cs out1 vals1
            else args.scan flavor .text cs (out1.push c) vals1 := rfl

theorem sigil_not_digit : tokenSigil.isDigit = false := by decide

theorem string_append_mk (out : String) (a b : List Char) :
    out ++ String.mk a ++ String.mk b = out ++ String.mk (a ++ b) := by
  apply String.ext
  simp [String.data_append]

theorem string_push_mk (out : String) (c : Char) (cs : List Char) :
    out.push c ++ String.mk cs = out ++ String.mk (c :: cs) := by
  apply String.ext
  simp [String.data_append]

theorem string_append_nil (out : String) : out ++ String.mk [] = out := by
  apply String.ext
  simp [String.data_append]

theorem scan_text_run {α : Type} (args : Args α) (flavor : Flavor) (l rest : List Char) :
    tokenSigil ∉ l → ∀ (out : String) (vals : List α),
      args.scan flavor .text (l ++ rest) out vals
        = args.scan flavor .text rest (out ++ String.mk l) vals := by
  induction l with
  | nil => intro _ out vals; rw [string_append_nil]; rfl
  | cons c l ih =>
    intro h out vals
    have hc : c ≠ tokenSigil := fun e => h (by simp [e])
    have hl : tokenSigil ∉ l := fun e => h (by simp [e])
    rw [List.cons_append, scan_text_cons, if_neg hc, ih hl, string_push_mk]

theorem scan_index_run {α : Type} (args : Args α) (flavor : Flavor) (ds rest : List Char) :
    (∀ c ∈ ds, c.isDigit = true) → ∀ (n : Nat) (out : String) (vals : List α),
      args.scan flavor (.index n) (ds ++ rest) out vals
        = args.scan flavor (.index (decimalValue n ds)) rest out vals := by
  induction ds with
  | nil => intro _ n out vals; rfl
  | cons d ds ih =>
    intro h n out vals
    have hd : d.isDigit = true := h d (by simp)
    have hds : ∀ c ∈ ds, c.isDigit = true := fun c hc => h c (by simp [hc])
    rw [List.cons_append, scan_index_cons, if_pos hd, ih hds, decimalValue_cons]

theorem scan_index_end {α : Type} (args : Args α) (flavor : Flavor) (n : Nat) (v : α)
    (rest : List Char) (out : String) (vals : List α)
    (hrest : ∀ c ∈ rest.head?, c.isDigit = false) (hv : args.values[n]? = some v) :
    args.scan flavor (.index n) rest out vals
      = args.scan flavor .text rest (out ++ flavor.RenderPlaceholder (vals.length + 1))
          (vals ++ [v]) := by
  have hemit : args.emit flavor n out vals
      = .ok (out ++ flavor.RenderPlaceholder (vals.length + 1), vals ++ [v]) := by
    unfold Args.emit
    rw [hv]
  cases rest with
  | nil =>
    show args.emit flavor n out vals = _
    rw [hemit]
    rfl
  | cons c cs =>
    have hc : ¬ c.isDigit = true := by
      have := hrest c (by simp)
      simp [this]
    rw [scan_index_cons, if_neg hc, hemit, scan_text_cons]

theorem skeletonChars_head (lit0 : List Char) (segs : List TokenSegment)
    (h : ∀ c ∈ lit0.head?, c.isDigit = false) :
    ∀ c ∈ (skeletonChars lit0 segs).head?, c.isDigit = false := by
  cases lit0 with
  | nil =>
    cases segs with
    | nil => intro c hc; simp [skeletonChars] at hc
    | cons s segs =>
      intro c hc
      simp only [skeletonChars, List.nil_append, List.cons_append, List.head?_cons,
        Option.mem_def, Option.some.injEq] at hc
      rw [← hc]
      exact sigil_not_digit
  | cons a l =>
    intro c hc
    have : (skeletonChars (a :: l) segs).head? = some a := by
      cases segs <;> simp [skeletonChars]
    rw [this] at hc
    exact h c (by simpa using hc)

/-- The scan of a text made of plain text and of tokens with registered
values succeeds, writes the rendered text and collects the values. -/
theorem scan_skeleton {α : Type} (args : Args α) (flavor : Flavor) (segs : List TokenSegment) :
    ∀ (lit0 : List Char) (out : String) (vals : List α), tokenSigil ∉ lit0 →
      (∀ s ∈ segs, s.WellFormed) →
      (∀ s ∈ segs, ∃ v, args.values[decimalValue 0 s.digits]? = some v) →
      ∃ added : List α,
        args.scan flavor .text (skeletonChars lit0 segs) out vals
            = .ok (out ++ renderedText flavor vals.length lit0 segs, vals ++ added)
          ∧ added.map some = segs.map (fun s => args.values[decimalValue 0 s.digits]?) := by
  induction segs with
  | nil =>
    intro lit0 out vals h0 _ _
    refine ⟨[], ?_, rfl⟩
    have := scan_text_run args flavor lit0 [] h0 out vals
    rw [List.append_nil] at this
    rw [List.append_nil]
    exact this
  | cons s segs ih =>
    intro lit0 out vals h0 hwf hreg
    obtain ⟨hne, hdig, hlit, hhead⟩ := hwf s (by simp)
    obtain ⟨v, hv⟩ := hreg s (by simp)
    have hwf2 : ∀ t ∈ segs, t.WellFormed := fun t ht => hwf t (by simp [ht])
    have hreg2 : ∀ t ∈ segs, ∃ v, args.values[decimalValue 0 t.digits]? = some v :=
      fun t ht => hreg t (by simp [ht])
    obtain ⟨added, hscan, hadded⟩ := ih s.lit
      (out ++ String.mk lit0 ++ flavor.RenderPlaceholder (vals.length + 1)) (vals ++ [v])
      hlit hwf2 hreg2
    refine ⟨v :: added, ?_, ?_⟩
    · obtain ⟨d, ds, hds⟩ : ∃ d ds, s.digits = d :: ds := by
        cases hsd : s.digits with
        | nil => exact absurd hsd hne
        | cons d ds => exact ⟨d, ds, rfl⟩
      have hd : d.isDigit = true := hdig d (by simp [hds])
      have hdsd : ∀ c ∈ ds, c.isDigit = true := fun c hc => hdig c (by simp [hds, hc])
      have hval : decimalValue (digitValue d) ds = decimalValue 0 s.digits := by
        rw [hds, decimalValue_cons]
        simp
      have hv2 : args.values[decimalValue (digitValue d) ds]? = some v := by rw [hval]; exact hv
      show args.scan flavor .text (lit0 ++ tokenSigil :: s.digits ++ skeletonChars s.lit segs)
        out vals = _
      rw [List.append_assoc, scan_text_run args flavor lit0 _ h0, List.cons_append,
        scan_text_cons, if_pos rfl, hds, List.cons_append, scan_sigil_cons, if_pos hd,
        scan_index_run args flavor ds _ hdsd,
        scan_index_end args flavor _ v _ _ _ (skeletonChars_head s.lit segs hhead) hv2, hscan]
      simp [renderedText, String.append_assoc]
    · simp [hadded, hv]

theorem skeletonChars_cons (c : Char) (lit0 : List Char) (segs : List TokenSegment) :
    skeletonChars (c :: lit0) segs = c :: skeletonChars lit0 segs := by
  cases segs <;> rfl

theorem renderedText_cons (flavor : Flavor) (k : Nat) (c : Char) (lit0 : List Char)
    (segs : List TokenSegment) (out : String) :
    out.push c ++ renderedText flavor k lit0 segs
      = out ++ renderedText flavor k (c :: lit0) segs := by
  cases segs with
  | nil => exact string_push_mk out c lit0
  | cons s segs =>
    simp only [renderedText]
    rw [← String.append_assoc, ← String.append_assoc, string_push_mk, String.append_assoc,
      String.append_assoc, String.append_assoc]

theorem renderedText_nil_cons (flavor : Flavor) (k : Nat) (s : TokenSegment)
    (segs : List TokenSegment) (out : String) :
    out ++ renderedText flavor k [] (s :: segs)
      = out ++ flavor.RenderPlaceholder (k + 1) ++ renderedText flavor (k + 1) s.lit segs := by
  simp only [renderedText]
  rw [← String.append_assoc, ← String.append_assoc, string_append_nil]

theorem emit_ok {α : Type} (args : Args α) (flavor : Flavor) (n : Nat) (out : String)
    (vals : List α) (out1 : String) (vals1 : List α)
    (h : args.emit flavor n out vals = .ok (out1, vals1)) :
    ∃ v, args.values[n]? = some v
      ∧ out1 = out ++ flavor.RenderPlaceholder (vals.length + 1) ∧ vals1 = vals ++ [v] := by
  unfold Args.emit at h
  split at h
  · exact absurd h (by simp)
  · rename_i v hv
    simp only [Except.ok.injEq, Prod.mk.injEq] at h
    exact ⟨v, hv, h.1.symm, h.2.symm⟩

/-- Every text that the scan accepts is made of plain text and of well-formed
tokens with registered values, and the scan wrote the rendered text and
collected those values.  The three parts are for the three positions of the
scan. -/
theorem scan_ok_decompose {α : Type} (args : Args α) (flavor : Flavor) (cs : List Char) :
    (∀ (out : String) (vals : List α) (text : String) (res : List α),
        args.scan flavor .text cs out vals = .ok (text, res) →
        ∃ (lit0 : List Char) (segs : List TokenSegment) (added : List α),
          tokenSigil ∉ lit0 ∧ (∀ s ∈ segs, s.WellFormed) ∧ cs = skeletonChars lit0 segs
            ∧ text = out ++ renderedText flavor vals.length lit0 segs
            ∧ res = vals ++ added
            ∧ added.map some = segs.map (fun s => args.values[decimalValue 0 s.digits]?))
      ∧ (∀ (out : String) (vals : List α) (text : String) (res : List α),
        args.scan flavor .sigil cs out vals = .ok (text, res) →
        ∃ (s : TokenSegment) (segs : List TokenSegment) (added : List α),
          (∀ t ∈ s :: segs, t.WellFormed) ∧ cs = s.digits ++ skeletonChars s.lit segs
            ∧ text = out ++ flavor.RenderPlaceholder (vals.length + 1)
                ++ renderedText flavor (vals.length + 1) s.lit segs
            ∧ res = vals ++ added
            ∧ added.map some
              = (s :: segs).map (fun s => args.values[decimalValue 0 s.digits]?))
      ∧ (∀ (n : Nat) (out : String) (vals : List α) (text : String) (res : List α),
        args.scan flavor (.index n) cs out vals = .ok (text, res) →
        ∃ (ds lit : List Char) (segs : List TokenSegment) (added : List α),
          (∀ c ∈ ds, c.isDigit = true) ∧ tokenSigil ∉ lit
            ∧ (∀ c ∈ lit.head?, c.isDigit = false) ∧ (∀ s ∈ segs, s.WellFormed)
            ∧ cs = ds ++ skeletonChars lit segs
            ∧ text = out ++ flavor.RenderPlaceholder (vals.length + 1)
                ++ renderedText flavor (vals.length + 1) lit segs
            ∧ res = vals ++ added
            ∧ added.map some
              = args.values[decimalValue n ds]?
                :: segs.map (fun s => args.values[decimalValue 0 s.digits]?)) := by
  induction cs with
  | nil =>
    refine ⟨?_, ?_, ?_⟩
    · intro out vals text res h
      simp only [Args.scan, Except.ok.injEq, Prod.mk.injEq] at h
      refine ⟨[], [], [], by simp, by simp, rfl, ?_, by simp [h.2], rfl⟩
      simp only [renderedText]
      rw [string_append_nil]
      exact h.1.symm
    · intro out vals text res h
      simp [Args.scan] at h
    · intro n out vals text res h
      obtain ⟨v, hv, h1, h2⟩ := emit_ok args flavor n out vals text res h
      refine ⟨[], [], [], [v], by simp, by simp, by simp, by simp, rfl, ?_, h2, ?_⟩
      · simp only [renderedText]
        rw [string_append_nil]
        exact h1
      · simp [decimalValue_nil, hv]
  | cons c cs ih =>
    obtain ⟨ihT, ihS, ihI⟩ := ih
    refine ⟨?_, ?_, ?_⟩
    · intro out vals text res h
      rw [scan_text_cons] at h
      by_cases hc : c = tokenSigil
      · rw [if_pos hc] at h
        obtain ⟨s, segs, added, hwf, hcs, htext, hres, hadd⟩ := ihS out vals text res h
        refine ⟨[], s :: segs, added, by simp, hwf, ?_, ?_, hres, hadd⟩
        · rw [hc, hcs]; rfl
        · rw [renderedText_nil_cons]; exact htext
      · rw [if_neg hc] at h
        obtain ⟨lit0, segs, added, h0, hwf, hcs, htext, hres, hadd⟩ :=
          ihT (out.push c) vals text res h
        refine ⟨c :: lit0, segs, added, ?_, hwf, ?_, ?_, hres, hadd⟩
        · intro hm
          rcases List.mem_cons.mp hm with e | e
          · exact hc e.symm
          · exact h0 e
        · rw [skeletonChars_cons, hcs]
        · rw [← renderedText_cons]; exact htext
    · intro out vals text res h
      rw [scan_sigil_cons] at h
      by_cases hd : c.isDigit = true
      · rw [if_pos hd] at h
        obtain ⟨ds, lit, segs, added, hds, hlit, hhead, hwf, hcs, htext, hres, hadd⟩ :=
          ihI (digitValue c) out vals text res h
        refine ⟨⟨c :: ds, lit⟩, segs, added, ?_, ?_, htext, hres, ?_⟩
        · intro t ht
          rcases List.mem_cons.mp ht with e | e
          · rw [e]
            refine ⟨List.cons_ne_nil _ _, ?_, hlit, hhead⟩
            intro x hx
            rcases List.mem_cons.mp hx with e2 | e2
            · rw [e2]; exact hd
            · exact hds x e2
          · exact hwf t e
        · rw [hcs]; rfl
        · rw [hadd]
          simp [decimalValue_cons]
      · rw [if_neg hd] at h
        exact absurd h (by simp)
    · intro n out vals text res h
      rw [scan_index_cons] at h
      by_cases hd : c.isDigit = true
      · rw [if_pos hd] at h
        obtain ⟨ds, lit, segs, added, hds, hlit, hhead, hwf, hcs, htext, hres, hadd⟩ :=
          ihI (10 * n + digitValue c) out vals text res h
        refine ⟨c :: ds, lit, segs, added, ?_, hlit, hhead, hwf, ?_, htext, hres, ?_⟩
        · intro x hx
          rcases List.mem_cons.mp hx with e2 | e2
          · rw [e2]; exact hd
          · exact hds x e2
        · rw [hcs]; rfl
        · rw [hadd, decimalValue_cons]
      · rw [if_neg hd] at h
        cases hemit : args.emit flavor n out vals with
        | error e => rw [hemit] at h; exact absurd h (by simp)
        | ok p =>
          obtain ⟨out1, vals1⟩ := p
          rw [hemit] at h
          obtain ⟨v, hv, h1, h2⟩ := emit_ok args flavor n out vals out1 vals1 hemit
          have hlen : vals1.length = vals.length + 1 := by rw [h2]; simp
          have hcd : c.isDigit = false := by simpa using hd
          by_cases hc : c = tokenSigil
          · simp only [if_pos hc] at h
            obtain ⟨s, segs, added, hwf, hcs, htext, hres, hadd⟩ := ihS out1 vals1 text res h
            refine ⟨[], [], s :: segs, v :: added, by simp, by simp, by simp, hwf, ?_, ?_, ?_, ?_⟩
            · rw [hc, hcs]; rfl
            · rw [String.append_assoc, renderedText_nil_cons, ← String.append_assoc,
                ← String.append_assoc, ← h1, ← hlen]
              exact htext
            · rw [hres, h2]; simp
            · simp only [List.map_cons, decimalValue_nil, hv]
              rw [hadd]
              rfl
          · simp only [if_neg hc] at h
            obtain ⟨lit0, segs, added, h0, hwf, hcs, htext, hres, hadd⟩ :=
              ihT (out1.push c) vals1 text res h
            refine ⟨[], c :: lit0, segs, v :: added, by simp, ?_, ?_, hwf, ?_, ?_, ?_, ?_⟩
            · intro hm
              rcases List.mem_cons.mp hm with e | e
              · exact hc e.symm
              · exact h0 e
            · intro x hx
              simp only [List.head?_cons, Option.mem_def, Option.some.injEq] at hx
              rw [← hx]; exact hcd
            · rw [skeletonChars_cons, hcs]; rfl
            · rw [← renderedText_cons, ← h1, ← hlen]; exact htext
            · rw [hres, h2]; simp
            · simp only [List.map_cons, decimalValue_nil, hv]
              rw [hadd]

/-! ### The registrations of `Var` -/

theorem applyOp_values {α : Type} (Escape : String → String) (op : Op α)
    (c c1 : CreateTableBuilder α) (h : applyOp Escape op c = some c1) :
    c1.args.values
      = c.args.values ++ registeredBy op := by
  cases op <;> simp only [applyOp, Option.some.injEq] at h
  case FKColumn n b =>
    unfold CreateTableBuilder.FKColumn at h
    split at h
    · simp at h
    · simp only [Option.some.injEq] at h
      subst h
      simp [CreateTableBuilder.Define, registeredBy]
  case String => subst h; rw [String_snd]; simp [registeredBy]
  case Var arg => subst h; simp [CreateTableBuilder.Var, Args.Add, registeredBy]
  all_goals
    subst h
    simp [CreateTableBuilder.CreateTable, CreateTableBuilder.CreateTempTable,
      CreateTableBuilder.IfNotExists, CreateTableBuilder.Define, CreateTableBuilder.Option,
      CreateTableBuilder.SQL, CreateTableBuilder.SetFlavor, CreateTableBuilder.BuildWithFlavor,
      CreateTableBuilder.Build, CreateTableBuilder.PKColumn, CreateTableBuilder.CreatedColumn,
      CreateTableBuilder.UpdatedColumn, CreateTableBuilder.DeletedColumn,
      CreateTableBuilder.Column, registeredBy]

theorem varLog_spec {α : Type} (Escape : String → String) (ops : List (Op α)) :
    ∀ (c c1 : CreateTableBuilder α), runOps Escape ops c = some c1 →
      (∃ extra, c1.args.values = c.args.values ++ extra)
        ∧ ∀ token v, (token, v) ∈ varLog Escape ops c →
            ∃ j, token = tokenOf j ∧ c1.args.values[j]? = some v := by
  induction ops with
  | nil =>
    intro c c1 h
    simp only [runOps, Option.some.injEq] at h
    subst h
    exact ⟨⟨[], by simp⟩, fun token v hm => by simp [varLog] at hm⟩
  | cons op ops ih =>
    intro c c1 h
    simp only [runOps] at h
    split at h
    · simp at h
    · rename_i c2 h2
      obtain ⟨⟨extra, hextra⟩, hlog⟩ := ih c2 c1 h
      have hval := applyOp_values Escape op c c2 h2
      refine ⟨⟨_, by rw [hextra, hval, List.append_assoc]⟩, ?_⟩
      intro token v hm
      simp only [varLog, h2, List.mem_append] at hm
      rcases hm with hm | hm
      · cases op <;> simp at hm
        case Var arg =>
          obtain ⟨ht, hv⟩ := hm
          refine ⟨c.args.values.length, ?_, ?_⟩
          · rw [ht]; rfl
          · rw [hextra, hval, hv, List.append_assoc,
              List.getElem?_append_right (Nat.le_refl _), Nat.sub_self]
            simp [registeredBy]
      · exact hlog token v hm

theorem corresponds_of_lookup {α : Type} (log : List (String × α)) (values : List α)
    (hlog : ∀ token v, (token, v) ∈ log → ∃ j, token = tokenOf j ∧ values[j]? = some v)
    (segs : List TokenSegment) (added : List α)
    (hadd : added.map some = segs.map (fun s => values[decimalValue 0 s.digits]?)) :
    Corresponds log segs added := by
  have hlen : added.length = segs.length := by
    have := congrArg List.length hadd
    simpa using this
  refine ⟨hlen, ?_⟩
  intro i hi token v hm hdata
  obtain ⟨j, hj, hv⟩ := hlog token v hm
  rw [hj, tokenOf_data] at hdata
  have hdig : (segs.get ⟨i, hi⟩).digits = Nat.toDigits 10 j := (List.cons.inj hdata).2.symm
  have hdec : decimalValue 0 (segs.get ⟨i, hi⟩).digits = j := by
    rw [hdig]; exact (toDigits_spec j).2.2
  have h1 : (added.map some)[i]? = (segs.map (fun s => values[decimalValue 0 s.digits]?))[i]? := by
    rw [hadd]
  rw [List.getElem?_map, List.getElem?_map, List.getElem?_eq_getElem hi] at h1
  have h2 : (segs[i]).digits = (segs.get ⟨i, hi⟩).digits := rfl
  simp only [Option.map_some', h2, hdec, hv] at h1
  cases hai : added[i]? with
  | none => rw [hai] at h1; simp at h1
  | some a =>
    rw [hai] at h1
    simp only [Option.map_some', Option.some.injEq] at h1
    rw [h1]

/-! ## C3: placeholders and arguments -/

theorem correspondsAfter_of_lookup {α : Type} (log : List (String × α)) (values : List α)
    (hlog : ∀ token v, (token, v) ∈ log → ∃ j, token = tokenOf j ∧ values[j]? = some v)
    (initialArg : List α) (segs : List TokenSegment) (added : List α)
    (hadd : added.map some = segs.map (fun s => values[decimalValue 0 s.digits]?)) :
    CorrespondsAfter log initialArg segs (initialArg ++ added) := by
  obtain ⟨hlen, hval⟩ := corresponds_of_lookup log values hlog segs added hadd
  refine ⟨by rw [List.length_append, hlen], List.take_left _ _, ?_⟩
  intro i hi token v hm hdata
  rw [List.getElem?_append_right (Nat.le_add_right _ _), Nat.add_sub_cancel_left]
  exact hval i hi token v hm hdata

set_option maxRecDepth 100000 in
/-- C3 fails as stated: built with two initial arguments, the builder with two
registered values returns a text with two placeholders and a list of four
arguments, the first of which is an initial argument and not the value
registered for the token at the first placeholder. -/
theorem C3_initial_arguments_are_counted :
    runOps id registeringOps (NewCreateTableBuilder questionFlavor questionFlavor)
        = some registeringBuilder
      ∧ (registeringBuilder.BuildWithFlavor questionFlavor [100, 200]).1
        = .ok ("CREATE TABLE t (a int DEFAULT ?) b = ?", [100, 200, 9, 7])
      ∧ "CREATE TABLE t (a int DEFAULT ?) b = ?".data.count '?' = 2
      ∧ (registeringBuilder.BuildWithFlavor ordinalFlavor [100, 200]).1
        = .ok ("CREATE TABLE t (a int DEFAULT :3) b = :4", [100, 200, 9, 7])
      ∧ "CREATE TABLE t (a int DEFAULT :3) b = :4"
        = renderedText ordinalFlavor 2 "CREATE TABLE t (a int DEFAULT ".data
            [⟨['1'], ") b = ".data⟩, ⟨['0'], []⟩]
      ∧ ([100, 200, 9, 7] : List Nat).length ≠ 2
      ∧ (tokenOf 1, 9)
        ∈ varLog id registeringOps (NewCreateTableBuilder questionFlavor questionFlavor)
      ∧ ([100, 200, 9, 7] : List Nat)[0]? ≠ some 9 :=
  ⟨rfl, rfl, by decide, rfl, rfl, by decide, by decide, by decide⟩

/-- C3 as amended: after any sequence of public calls on a new builder, with
any flavor and any initial arguments: (1) whenever `BuildWithFlavor` returns a
statement, the assembled text is plain text interleaved with well-formed
synthetic tokens, the output text is that text with the tokens replaced left
to right by the placeholders of the ordinals that follow the initial
arguments, the argument list is the initial arguments followed by one argument
for each placeholder, and the argument of the i-th placeholder is the value
that a `Var` call registered for the token standing there; (2) it does return
such a statement whenever the assembled text is plain text without the sigil
interleaved with tokens that `Var` calls of the sequence returned, none of
them directly followed by a digit. -/
theorem C3_placeholders_match_arguments {α : Type} (Escape : String → String)
    (DefaultFlavor zeroFlavor : Flavor) (ops : List (Op α)) (ctb : CreateTableBuilder α)
    (hrun : runOps Escape ops (NewCreateTableBuilder DefaultFlavor zeroFlavor) = some ctb)
    (flavor : Flavor) (initialArg : List α) :
    (∀ (text : String) (args : List α),
        (ctb.BuildWithFlavor flavor initialArg).1 = .ok (text, args) →
        ∃ (lit0 : List Char) (segs : List TokenSegment),
          tokenSigil ∉ lit0 ∧ (∀ s ∈ segs, s.WellFormed)
            ∧ (CreateTableBuilder.BuildWithFlavor.buf ctb).data = skeletonChars lit0 segs
            ∧ text = renderedText flavor initialArg.length lit0 segs
            ∧ CorrespondsAfter
                (varLog Escape ops (NewCreateTableBuilder DefaultFlavor zeroFlavor))
                initialArg segs args)
      ∧ (∀ (lit0 : List Char) (segs : List TokenSegment),
        tokenSigil ∉ lit0 →
        (∀ s ∈ segs, tokenSigil ∉ s.lit ∧ (∀ c ∈ s.lit.head?, c.isDigit = false)
          ∧ ∃ v, (String.mk (tokenSigil :: s.digits), v)
              ∈ varLog Escape ops (NewCreateTableBuilder DefaultFlavor zeroFlavor)) →
        (CreateTableBuilder.BuildWithFlavor.buf ctb).data = skeletonChars lit0 segs →
        ∃ args : List α,
          (ctb.BuildWithFlavor flavor initialArg).1
              = .ok (renderedText flavor initialArg.length lit0 segs, args)
            ∧ CorrespondsAfter
                (varLog Escape ops (NewCreateTableBuilder DefaultFlavor zeroFlavor))
                initialArg segs args) := by
  obtain ⟨_, hlog⟩ := varLog_spec Escape ops _ ctb hrun
  have hempty : ∀ t : String, "" ++ t = t := by
    intro t; apply String.ext; simp [String.data_append]
  refine ⟨?_, ?_⟩
  · intro text args h
    obtain ⟨lit0, segs, added, h0, hwf, hcs, htext, hres, hadd⟩ :=
      (scan_ok_decompose ctb.args flavor (CreateTableBuilder.BuildWithFlavor.buf ctb).data).1
        "" initialArg text args h
    refine ⟨lit0, segs, h0, hwf, hcs, ?_, ?_⟩
    · rw [htext, hempty]
    · rw [hres]
      exact correspondsAfter_of_lookup _ ctb.args.values hlog initialArg segs added hadd
  · intro lit0 segs h0 hsegs hbuf
    have hdec : ∀ s ∈ segs, s.WellFormed
        ∧ ∃ v, ctb.args.values[decimalValue 0 s.digits]? = some v := by
      intro s hs
      obtain ⟨hlit, hhead, v, hv⟩ := hsegs s hs
      obtain ⟨j, hj, hval⟩ := hlog _ v hv
      have hdata := congrArg String.data hj
      rw [tokenOf_data] at hdata
      have hdig : s.digits = Nat.toDigits 10 j := (List.cons.inj hdata).2
      obtain ⟨t1, t2, t3⟩ := toDigits_spec j
      rw [← hdig] at t1 t2 t3
      exact ⟨⟨t1, t2, hlit, hhead⟩, v, by rw [t3]; exact hval⟩
    obtain ⟨added, hscan, hadd⟩ := scan_skeleton ctb.args flavor segs lit0 "" initialArg
      h0 (fun s hs => (hdec s hs).1) (fun s hs => (hdec s hs).2)
    refine ⟨initialArg ++ added, ?_,
      correspondsAfter_of_lookup _ ctb.args.values hlog initialArg segs added hadd⟩
    show ctb.args.scan flavor .text (CreateTableBuilder.BuildWithFlavor.buf ctb).data ""
      initialArg = _
    rw [hbuf, hscan, hempty]

set_option maxRecDepth 100000 in
/-- C3 as amended, at a builder with two registered values used in the reverse
order of their registration and built with two initial arguments: the first
placeholder has the ordinal 3 and belongs to the second registered value. -/
theorem C3_placeholders_match_arguments_witness :
    runOps id registeringOps (NewCreateTableBuilder questionFlavor questionFlavor)
        = some registeringBuilder
      ∧ (registeringBuilder.BuildWithFlavor ordinalFlavor [100, 200]).1
        = .ok ("CREATE TABLE t (a int DEFAULT :3) b = :4", [100, 200, 9, 7])
      ∧ (registeringBuilder.BuildWithFlavor ordinalFlavor []).1
        = .ok ("CREATE TABLE t (a int DEFAULT :1) b = :2", [9, 7])
      ∧ ∃ args : List Nat,
          (registeringBuilder.BuildWithFlavor ordinalFlavor [100, 200]).1
              = .ok (renderedText ordinalFlavor ([100, 200] : List Nat).length
                  "CREATE TABLE t (a int DEFAULT ".data
                  [⟨['1'], ") b = ".data⟩, ⟨['0'], []⟩], args)
            ∧ CorrespondsAfter
                (varLog id registeringOps (NewCreateTableBuilder questionFlavor questionFlavor))
                [100, 200] [⟨['1'], ") b = ".data⟩, ⟨['0'], []⟩] args :=
  ⟨rfl, rfl, rfl,
    (C3_placeholders_match_arguments id questionFlavor questionFlavor registeringOps
      registeringBuilder rfl ordinalFlavor [100, 200]).2
      "CREATE TABLE t (a int DEFAULT ".data [⟨['1'], ") b = ".data⟩, ⟨['0'], []⟩]
      (by decide)
      (by
        intro s hs
        simp only [List.mem_cons, List.mem_singleton, List.not_mem_nil, or_false] at hs
        rcases hs with hs | hs
        · subst hs
          exact ⟨by decide, by decide, 9, by decide⟩
        · subst hs
          exact ⟨by decide, by decide, 7, by decide⟩)
      rfl⟩

/-! ### What a sequence of calls leaves in the builder -/

theorem definesOf_cons {α : Type} (op : Op α) (ops : List (Op α)) :
    definesOf (op :: ops) = definesOf [op] ++ definesOf ops := by
  cases op <;> simp [definesOf]

theorem optionsOf_cons {α : Type} (op : Op α) (ops : List (Op α)) :
    optionsOf (op :: ops) = optionsOf [op] ++ optionsOf ops := by
  cases op <;> simp [optionsOf]

theorem queuedAt_cons {α : Type} (m : injectionMarker) (op : Op α) (ops : List (Op α))
    (cur : injectionMarker) :
    queuedAt m (op :: ops) cur = queuedAt m [op] cur ++ queuedAt m ops (markerAfter op cur) := by
  cases op <;> simp [queuedAt, markerAfter]
  split <;> simp

theorem applyOp_trace {α : Type} (Escape : String → String) (op : Op α)
    (c c1 : CreateTableBuilder α) (h : applyOp Escape op c = some c1) :
    c1.defs = c.defs ++ definesOf [op]
      ∧ c1.options = c.options ++ optionsOf [op]
      ∧ (∀ m, c1.injection.markerSQLs m = c.injection.markerSQLs m ++ queuedAt m [op] c.marker)
      ∧ c1.marker = markerAfter op c.marker := by
  cases op <;> simp only [applyOp, Option.some.injEq] at h
  case FKColumn n b =>
    unfold CreateTableBuilder.FKColumn at h
    split at h
    · simp at h
    · rename_i props hprops
      simp only [Option.some.injEq] at h
      subst h
      simp [CreateTableBuilder.Define, definesOf, optionsOf, queuedAt, markerAfter, hprops]
  case SQL sql =>
    subst h
    refine ⟨by simp [CreateTableBuilder.SQL, definesOf], by simp [CreateTableBuilder.SQL, optionsOf],
      ?_, by simp [CreateTableBuilder.SQL, markerAfter]⟩
    intro m
    simp only [CreateTableBuilder.SQL, injection.SQL, queuedAt]
    by_cases hm : m = c.marker
    · simp [hm]
    · have hm2 : ¬ c.marker = m := fun e => hm e.symm
      simp [hm, hm2]
  case String =>
    subst h
    rw [String_snd]
    simp [definesOf, optionsOf, queuedAt, markerAfter]
  all_goals
    subst h
    simp [CreateTableBuilder.CreateTable, CreateTableBuilder.CreateTempTable,
      CreateTableBuilder.IfNotExists, CreateTableBuilder.Define, CreateTableBuilder.Option,
      CreateTableBuilder.Var, CreateTableBuilder.SetFlavor, CreateTableBuilder.BuildWithFlavor,
      CreateTableBuilder.Build, CreateTableBuilder.PKColumn, CreateTableBuilder.CreatedColumn,
      CreateTableBuilder.UpdatedColumn, CreateTableBuilder.DeletedColumn,
      CreateTableBuilder.Column, definesOf, optionsOf, queuedAt, markerAfter]

theorem runOps_trace {α : Type} (Escape : String → String) (ops : List (Op α)) :
    ∀ (c c1 : CreateTableBuilder α), runOps Escape ops c = some c1 →
      c1.defs = c.defs ++ definesOf ops
        ∧ c1.options = c.options ++ optionsOf ops
        ∧ (∀ m, c1.injection.markerSQLs m = c.injection.markerSQLs m ++ queuedAt m ops c.marker)
        ∧ c1.marker = ops.foldl (fun m op => markerAfter op m) c.marker := by
  induction ops with
  | nil =>
    intro c c1 h
    simp only [runOps, Option.some.injEq] at h
    subst h
    simp [definesOf, optionsOf, queuedAt]
  | cons op ops ih =>
    intro c c1 h
    simp only [runOps] at h
    split at h
    · simp at h
    · rename_i c2 h2
      obtain ⟨a1, a2, a3, a4⟩ := applyOp_trace Escape op c c2 h2
      obtain ⟨b1, b2, b3, b4⟩ := ih c2 c1 h
      refine ⟨?_, ?_, ?_, ?_⟩
      · rw [b1, a1, definesOf_cons op ops, List.append_assoc]
      · rw [b2, a2, optionsOf_cons op ops, List.append_assoc]
      · intro m
        rw [b3 m, a3 m, a4, queuedAt_cons m op ops, List.append_assoc]
      · rw [b4, a4, List.foldl_cons]

theorem new_fields {α : Type} (D z : Flavor) :
    (NewCreateTableBuilder D z : CreateTableBuilder α).defs = []
      ∧ (NewCreateTableBuilder D z : CreateTableBuilder α).options = []
      ∧ (∀ m, (NewCreateTableBuilder D z : CreateTableBuilder α).injection.markerSQLs m = [])
      ∧ (NewCreateTableBuilder D z : CreateTableBuilder α).marker = createTableMarkerInit
      ∧ (NewCreateTableBuilder D z : CreateTableBuilder α).verb = "CREATE TABLE"
      ∧ (NewCreateTableBuilder D z : CreateTableBuilder α).ifNotExists = false
      ∧ (NewCreateTableBuilder D z : CreateTableBuilder α).table = "" :=
  ⟨rfl, rfl, fun _ => rfl, rfl, rfl, rfl, rfl⟩

/-! ## C4: injected SQL is grouped by marker in grammar order -/

/-- C5: two calls of `BuildWithFlavor` in a row on the same builder, with the
same flavor and the same initial arguments, return the same text and the same
argument list, and so do two calls of `Build`. -/
theorem C5_build_twice_same_result {α : Type} (ctb : CreateTableBuilder α) (flavor : Flavor)
    (initialArg : List α) :
    ((ctb.BuildWithFlavor flavor initialArg).2.BuildWithFlavor flavor initialArg).1
        = (ctb.BuildWithFlavor flavor initialArg).1
      ∧ ctb.Build.2.Build.1 = ctb.Build.1 :=
  ⟨rfl, rfl⟩

/-! ## C6: a builder with a target only -/

theorem runOps_append {α : Type} (Escape : String → String) (ops1 ops2 : List (Op α)) :
    ∀ (c : CreateTableBuilder α),
      runOps Escape (ops1 ++ ops2) c
        = match runOps Escape ops1 c with
          | none => none
          | some c1 => runOps Escape ops2 c1 := by
  induction ops1 with
  | nil => intro c; simp [runOps]
  | cons op ops ih =>
    intro c
    simp only [List.cons_append, runOps]
    cases applyOp Escape op c with
    | none => rfl
    | some c2 => exact ih c2

theorem runOps_isCreate {α : Type} (Escape : String → String) (ops : List (Op α))
    (hops : ∀ op ∈ ops, op.isCreate = true) :
    ∀ (c : CreateTableBuilder α), ∃ c1, runOps Escape ops c = some c1
      ∧ c1.defs = c.defs ∧ c1.options = c.options ∧ c1.injection = c.injection
      ∧ c1.ifNotExists = c.ifNotExists
      ∧ c1.verb = (if ops.any Op.isCreateTemp then "CREATE TEMPORARY TABLE" else c.verb)
      ∧ (ops ≠ [] → ∀ t, (ops.getLast? = some (.CreateTable t)
            ∨ ops.getLast? = some (.CreateTempTable t)) → c1.table = Escape t) := by
  induction ops with
  | nil => intro c; exact ⟨c, rfl, rfl, rfl, rfl, rfl, rfl, fun h => absurd rfl h⟩
  | cons op ops ih =>
    intro c
    have hop := hops op (by simp)
    have hrest : ∀ o ∈ ops, o.isCreate = true := fun o ho => hops o (by simp [ho])
    have tab : ∀ (c0 c1 : CreateTableBuilder α) (t0 : String), c0.table = Escape t0 →
        (op = .CreateTable t0 ∨ op = .CreateTempTable t0) →
        runOps Escape ops c0 = some c1 →
        (ops ≠ [] → ∀ t, (ops.getLast? = some (.CreateTable t)
            ∨ ops.getLast? = some (.CreateTempTable t)) → c1.table = Escape t) →
        ∀ t, ((op :: ops).getLast? = some (.CreateTable t)
            ∨ (op :: ops).getLast? = some (.CreateTempTable t)) → c1.table = Escape t := by
      intro c0 c1 t0 ht0 hop0 hrun hih t ht
      cases ops with
      | nil =>
        simp only [runOps, Option.some.injEq] at hrun
        subst hrun
        simp only [List.getLast?_singleton, Option.some.injEq] at ht
        rcases hop0 with e | e <;> rcases ht with e2 | e2 <;> rw [e] at e2 <;>
          first
          | (injection e2 with e3; rw [← e3]; exact ht0)
          | exact absurd e2 (by simp)
      | cons o os =>
        apply hih (by simp) t
        simpa [List.getLast?_cons_cons] using ht
    cases op <;> simp [Op.isCreate] at hop
    case CreateTable t =>
      obtain ⟨c1, h1, h2, h3, h4, h5, h6, h7⟩ := ih hrest (c.CreateTable Escape t)
      refine ⟨c1, by simpa [runOps, applyOp] using h1, h2, h3, h4, h5, ?_, ?_⟩
      · simpa [Op.isCreateTemp] using h6
      · intro _
        exact tab (c.CreateTable Escape t) c1 t rfl (Or.inl rfl) h1 h7
    case CreateTempTable t =>
      obtain ⟨c1, h1, h2, h3, h4, h5, h6, h7⟩ := ih hrest (c.CreateTempTable Escape t)
      refine ⟨c1, by simpa [runOps, applyOp] using h1, h2, h3, h4, h5, ?_, ?_⟩
      · rw [h6]
        simp [Op.isCreateTemp, CreateTableBuilder.CreateTempTable]
      · intro _
        exact tab (c.CreateTempTable Escape t) c1 t rfl (Or.inr rfl) h1 h7

set_option maxRecDepth 100000 in
/-- C6 fails as stated: for the table name `a$b`, whose escaped form holds the
token sigil, the builder on which only `CreateTable` was called does not build
to the verb, one space and the escaped table name, neither with an `Escape`
that doubles the dollar sign nor with the identity. -/
theorem C6_sigil_in_table_name :
    doublingEscape "a$b" = "a$$b"
      ∧ runOps doublingEscape [.CreateTable "a$b"]
          (NewCreateTableBuilder questionFlavor questionFlavor) = some dollarTableBuilder
      ∧ CreateTableBuilder.BuildWithFlavor.buf dollarTableBuilder = "CREATE TABLE a$$b"
      ∧ (dollarTableBuilder.BuildWithFlavor questionFlavor []).1 = .error .malformedToken
      ∧ (dollarTableBuilder.BuildWithFlavor questionFlavor []).1
        ≠ .ok ("CREATE TABLE" ++ " " ++ doublingEscape "a$b", [])
      ∧ runOps id [.CreateTable "a$b"]
          (NewCreateTableBuilder questionFlavor questionFlavor) = some rawDollarTableBuilder
      ∧ (rawDollarTableBuilder.BuildWithFlavor questionFlavor []).1 = .error .malformedToken
      ∧ (rawDollarTableBuilder.BuildWithFlavor questionFlavor []).1
        ≠ .ok ("CREATE TABLE" ++ " " ++ id "a$b", []) := by
  have h1 : (dollarTableBuilder.BuildWithFlavor questionFlavor []).1
      = .error .malformedToken := rfl
  have h2 : (rawDollarTableBuilder.BuildWithFlavor questionFlavor []).1
      = .error .malformedToken := rfl
  refine ⟨rfl, rfl, rfl, h1, ?_, rfl, h2, ?_⟩
  · rw [h1]; simp
  · rw [h2]; simp

/-- C6 as amended: a new builder on which only `CreateTable` and
`CreateTempTable` were called, the last of them with the table name `table`,
assembles for every table name exactly the verb, one space and the escaped
table name: no parenthesis is added and nothing follows the target; and when
the escaped table name holds no token sigil, it builds, whatever the flavor,
to exactly that text with the initial arguments as its arguments. -/
theorem C6_target_only {α : Type} (Escape : String → String) (DefaultFlavor zeroFlavor : Flavor)
    (ops : List (Op α)) (hops : ∀ op ∈ ops, op.isCreate = true) (ops_ne : ops ≠ [])
    (table : String)
    (hlast : ops.getLast? = some (.CreateTable table)
      ∨ ops.getLast? = some (.CreateTempTable table))
    (flavor : Flavor) (initialArg : List α) :
    ∃ ctb : CreateTableBuilder α,
      runOps Escape ops (NewCreateTableBuilder DefaultFlavor zeroFlavor) = some ctb
        ∧ CreateTableBuilder.BuildWithFlavor.buf ctb = verbAfter ops ++ " " ++ Escape table
        ∧ (tokenSigil ∉ (Escape table).data →
          (ctb.BuildWithFlavor flavor initialArg).1
            = .ok (verbAfter ops ++ " " ++ Escape table, initialArg)) := by
  obtain ⟨c, h1, h2, h3, h4, h5, h6, h7⟩ :=
    runOps_isCreate Escape ops hops (NewCreateTableBuilder DefaultFlavor zeroFlavor)
  have hd : c.defs = [] := h2
  have ho : c.options = [] := h3
  have hi : c.injection = newInjection := h4
  have hf : c.ifNotExists = false := h5
  have hv : c.verb = verbAfter ops := h6
  have ht : c.table = Escape table := h7 ops_ne table hlast
  have hbuf : CreateTableBuilder.BuildWithFlavor.buf c = verbAfter ops ++ " " ++ Escape table := by
    rw [buf_eq_branches, hd, ho, hi, hf, ht, hv]
    simp [injection.flush, newInjection, modifierText, String.append_assoc]
  refine ⟨c, h1, hbuf, ?_⟩
  intro hs
  rw [← hbuf]
  apply BuildWithFlavor_of_no_sigil c flavor initialArg
  rw [hbuf]
  simp only [String.data_append, List.mem_append, not_or]
  refine ⟨⟨?_, by decide⟩, hs⟩
  unfold verbAfter
  split <;> decide

set_option maxRecDepth 100000 in
/-- C6 as amended, for a `CreateTempTable` call followed by a `CreateTable`
call with a table name without the sigil. -/
theorem C6_target_only_witness :
    (∀ op ∈ ([.CreateTempTable "old", .CreateTable "users"] : List (Op Nat)), op.isCreate = true)
      ∧ ([.CreateTempTable "old", .CreateTable "users"] : List (Op Nat)) ≠ []
      ∧ tokenSigil ∉ (doublingEscape "users").data
      ∧ verbAfter ([.CreateTempTable "old", .CreateTable "users"] : List (Op Nat))
          ++ " " ++ doublingEscape "users" = "CREATE TEMPORARY TABLE users"
      ∧ ∃ ctb : CreateTableBuilder Nat,
        runOps doublingEscape [.CreateTempTable "old", .CreateTable "users"]
            (NewCreateTableBuilder questionFlavor questionFlavor) = some ctb
          ∧ CreateTableBuilder.BuildWithFlavor.buf ctb
            = verbAfter ([.CreateTempTable "old", .CreateTable "users"] : List (Op Nat))
              ++ " " ++ doublingEscape "users"
          ∧ (tokenSigil ∉ (doublingEscape "users").data →
            (ctb.BuildWithFlavor ordinalFlavor []).1
              = .ok (verbAfter ([.CreateTempTable "old", .CreateTable "users"] : List (Op Nat))
                ++ " " ++ doublingEscape "users", [])) :=
  ⟨by decide, by simp, by decide, by decide,
    C6_target_only doublingEscape questionFlavor questionFlavor
      [.CreateTempTable "old", .CreateTable "users"]
      (by decide) (by simp) "users" (Or.inl rfl) ordinalFlavor []⟩

/-! ## C7: `IfNotExists` -/

/-- C10: a new builder is at Init; `CreateTable` and `CreateTempTable` move the
cursor to AfterTarget, `Define` and every column helper to AfterDefinitions,
`Option` to AfterOptions; `IfNotExists`, `Var`, `SetFlavor`, `SQL`,
`BuildWithFlavor`, `Build` and `String` leave it where it is, so after a
sequence of calls it is where the last clause call put it; and `SQL(s)` appends
`s` to the list of the marker current at the call and changes the list of no
other marker.  The four markers are distinct. -/
theorem C10_marker_cursor {α : Type} (Escape : String → String) (ctb : CreateTableBuilder α) :
    (∀ D z : Flavor, (NewCreateTableBuilder D z : CreateTableBuilder α).marker
        = createTableMarkerInit)
      ∧ (∀ table, (ctb.CreateTable Escape table).marker = createTableMarkerAfterCreate)
      ∧ (∀ table, (ctb.CreateTempTable Escape table).marker = createTableMarkerAfterCreate)
      ∧ (∀ d, (ctb.Define d).marker = createTableMarkerAfterDefine)
      ∧ ctb.PKColumn.marker = createTableMarkerAfterDefine
      ∧ (∀ name nullable c, ctb.FKColumn name nullable = some c →
          c.marker = createTableMarkerAfterDefine)
      ∧ ctb.CreatedColumn.marker = createTableMarkerAfterDefine
      ∧ ctb.UpdatedColumn.marker = createTableMarkerAfterDefine
      ∧ ctb.DeletedColumn.marker = createTableMarkerAfterDefine
      ∧ (∀ colName colType nullable,
          (ctb.Column colName colType nullable).marker = createTableMarkerAfterDefine)
      ∧ (∀ opt, (ctb.Option opt).marker = createTableMarkerAfterOption)
      ∧ ctb.IfNotExists.marker = ctb.marker
      ∧ (∀ arg, (ctb.Var arg).2.marker = ctb.marker)
      ∧ (∀ flavor, (ctb.SetFlavor flavor).2.marker = ctb.marker)
      ∧ (∀ sql, (ctb.SQL sql).marker = ctb.marker)
      ∧ (∀ flavor initialArg, (ctb.BuildWithFlavor flavor initialArg).2.marker = ctb.marker)
      ∧ ctb.Build.2.marker = ctb.marker
      ∧ ctb.String.2.marker = ctb.marker
      ∧ (∀ (ops : List (Op α)) (c : CreateTableBuilder α), runOps Escape ops ctb = some c →
          c.marker = ops.foldl (fun m op => markerAfter op m) ctb.marker)
      ∧ (∀ sql, (ctb.SQL sql).injection.markerSQLs ctb.marker
          = ctb.injection.markerSQLs ctb.marker ++ [sql])
      ∧ (∀ sql m, m ≠ ctb.marker →
          (ctb.SQL sql).injection.markerSQLs m = ctb.injection.markerSQLs m)
      ∧ [createTableMarkerInit, createTableMarkerAfterCreate, createTableMarkerAfterDefine,
          createTableMarkerAfterOption].Nodup := by
  refine ⟨fun _ _ => rfl, fun _ => rfl, fun _ => rfl, fun _ => rfl, rfl, ?_, rfl, rfl, rfl,
    fun _ _ _ => rfl, fun _ => rfl, rfl, fun _ => rfl, fun _ => rfl, fun _ => rfl,
    fun _ _ => rfl, rfl, by rw [String_snd], ?_, ?_, ?_, by decide⟩
  · intro name nullable c hc
    unfold CreateTableBuilder.FKColumn at hc
    split at hc
    · simp at hc
    · simp only [Option.some.injEq] at hc
      rw [← hc]
      rfl
  · intro ops c hc
    exact (runOps_trace Escape ops ctb c hc).2.2.2
  · intro sql
    simp [CreateTableBuilder.SQL, injection.SQL]
  · intro sql m hm
    simp [CreateTableBuilder.SQL, injection.SQL, hm]

set_option maxRecDepth 100000 in
/-- C10 at the interleaving example: the last clause call is a `Define`, and a
further `SQL` call leaves the list of AfterOptions as it is. -/
theorem C10_marker_cursor_witness :
    runOps id interleavedOps (NewCreateTableBuilder questionFlavor questionFlavor)
        = some interleavedBuilder
      ∧ interleavedBuilder.marker
        = interleavedOps.foldl (fun m op => markerAfter op m)
          (NewCreateTableBuilder questionFlavor questionFlavor : CreateTableBuilder Nat).marker
      ∧ interleavedBuilder.marker = createTableMarkerAfterDefine
      ∧ createTableMarkerAfterOption ≠ interleavedBuilder.marker
      ∧ (interleavedBuilder.SQL "x").injection.markerSQLs createTableMarkerAfterOption
        = interleavedBuilder.injection.markerSQLs createTableMarkerAfterOption :=
  ⟨rfl,
    (C10_marker_cursor id
      (NewCreateTableBuilder questionFlavor questionFlavor : CreateTableBuilder Nat)).2.2.2.2.2.2.2.2.2.2.2.2.2.2.2.2.2.2.1
      interleavedOps interleavedBuilder rfl,
    rfl, by decide,
    (C10_marker_cursor id interleavedBuilder).2.2.2.2.2.2.2.2.2.2.2.2.2.2.2.2.2.2.2.2.1
      "x" createTableMarkerAfterOption (by decide)⟩

/-! ### `strings.Split` and the second segment -/

theorem splitChars_eq (sep : Char) (cs : List Char) :
    strings.splitChars sep cs
      = cs.takeWhile (fun c => c != sep)
        :: (match cs.dropWhile (fun c => c != sep) with
          | [] => []
          | _ :: rest => strings.splitChars sep rest) := by
  induction cs with
  | nil => rfl
  | cons c cs ih =>
    by_cases hc : c = sep
    · subst hc
      simp [strings.splitChars]
    · have hne : (c != sep) = true := by simpa using hc
      rw [strings.splitChars, if_neg hc, ih]
      simp [List.takeWhile_cons, List.dropWhile_cons, hne]

theorem dropWhile_ne_of_mem (sep : Char) (cs : List Char) (h : sep ∈ cs) :
    ∃ rest, cs.dropWhile (fun c => c != sep) = sep :: rest := by
  induction cs with
  | nil => simp at h
  | cons c cs ih =>
    by_cases hc : c = sep
    · subst hc
      exact ⟨cs, by simp⟩
    · have hne : (c != sep) = true := by simpa using hc
      have hm : sep ∈ cs := by
        rcases List.mem_cons.mp h with e | e
        · exact absurd e.symm hc
        · exact e
      obtain ⟨rest, hrest⟩ := ih hm
      exact ⟨rest, by rw [List.dropWhile_cons, hne]; simpa using hrest⟩

theorem dropWhile_ne_of_not_mem (sep : Char) (cs : List Char) (h : sep ∉ cs) :
    cs.dropWhile (fun c => c != sep) = [] := by
  induction cs with
  | nil => rfl
  | cons c cs ih =>
    have hc : c ≠ sep := fun e => h (by simp [e])
    have hne : (c != sep) = true := by simpa using hc
    have hm : sep ∉ cs := fun e => h (by simp [e])
    rw [List.dropWhile_cons, hne]
    simpa using ih hm

theorem Split_second_of_mem (s : String) (h : '.' ∈ s.data) :
    (strings.Split s '.')[1]? = some (String.mk (secondSegment s.data)) := by
  obtain ⟨rest, hrest⟩ := dropWhile_ne_of_mem '.' s.data h
  unfold strings.Split secondSegment
  rw [splitChars_eq, hrest]
  simp only [List.map_cons, List.drop_succ_cons, List.drop_zero]
  rw [splitChars_eq]
  simp

theorem Split_second_of_not_mem (s : String) (h : '.' ∉ s.data) :
    (strings.Split s '.')[1]? = none := by
  unfold strings.Split
  rw [splitChars_eq, dropWhile_ne_of_not_mem '.' s.data h]
  rfl

theorem singleTableName_mk (seg : List Char) :
    singleTableName (String.mk seg) = String.mk (withoutTrailingS seg) := by
  unfold singleTableName withoutTrailingS strings.HasSuffix
  by_cases h : seg.getLast? = some 's'
  · simp [h]
  · simp [h]

theorem FKColumn_props_of_mem (completeTableName : String) (nullable : Bool)
    (h : '.' ∈ completeTableName.data) :
    CreateTableBuilder.FKColumn.props completeTableName nullable
      = some (if nullable then
          [foreignKeyColumn completeTableName, "bigserial", "REFERENCES",
            completeTableName ++ "(id)"]
        else
          [foreignKeyColumn completeTableName, "bigserial", "NOT NULL", "REFERENCES",
            completeTableName ++ "(id)"]) := by
  unfold CreateTableBuilder.FKColumn.props
  rw [Split_second_of_mem completeTableName h]
  simp only [singleTableName_mk]
  cases nullable <;> rfl

theorem FKColumn_props_of_not_mem (completeTableName : String) (nullable : Bool)
    (h : '.' ∉ completeTableName.data) :
    CreateTableBuilder.FKColumn.props completeTableName nullable = none := by
  unfold CreateTableBuilder.FKColumn.props
  rw [Split_second_of_not_mem completeTableName h]

/-! ## C11: calls that do not return -/

/-- C11: `FKColumn` does not return a builder for a table name without a dot:
`strings.Split(completeTableName, ".")` then has one segment and the index
expression `[1]` is out of range.  This is so for the name `users` and for the
empty name, on every builder and for both values of `nullable`; the call
returns a builder exactly when the name has a dot, and it is the only public
call that does not return. -/
theorem C11_FKColumn_index_out_of_range {α : Type} (ctb : CreateTableBuilder α)
    (nullable : Bool) :
    strings.Split "users" '.' = ["users"]
      ∧ ctb.FKColumn "users" nullable = none
      ∧ strings.Split "" '.' = [""]
      ∧ ctb.FKColumn "" nullable = none
      ∧ (∀ completeTableName : String,
          (ctb.FKColumn completeTableName nullable).isSome = true
            ↔ '.' ∈ completeTableName.data)
      ∧ ∀ (Escape : String → String) (op : Op α),
          applyOp Escape op ctb = none
            ↔ ∃ (completeTableName : String) (b : Bool),
                op = .FKColumn completeTableName b ∧ '.' ∉ completeTableName.data := by
  have hsome : ∀ (name : String) (b : Bool),
      (ctb.FKColumn name b).isSome = true ↔ '.' ∈ name.data := by
    intro name b
    unfold CreateTableBuilder.FKColumn
    by_cases h : '.' ∈ name.data
    · rw [FKColumn_props_of_mem name b h]
      simp [h]
    · rw [FKColumn_props_of_not_mem name b h]
      simp [h]
  refine ⟨rfl, rfl, rfl, rfl, fun name => hsome name nullable, ?_⟩
  intro Escape op
  cases op
  case FKColumn name b =>
    have h := hsome name b
    simp only [applyOp, Op.FKColumn.injEq]
    constructor
    · intro hnone
      refine ⟨name, b, ⟨rfl, rfl⟩, ?_⟩
      intro hmem
      rw [hnone] at h
      exact absurd (h.mpr hmem) (by simp)
    · rintro ⟨n2, b2, ⟨e1, e2⟩, hnot⟩
      subst e1
      cases hopt : ctb.FKColumn name b with
      | none => rfl
      | some c =>
        rw [hopt] at h
        exact absurd (h.mp rfl) hnot
  all_goals simp [applyOp]

/-! ## C12: the column helpers -/

/-- C12: each convenience helper is one `Define` call with fixed tokens, on
every builder: the resulting state is the same, and with it the assembled
text. -/
theorem C12_helpers_are_define {α : Type} (ctb : CreateTableBuilder α) :
    ctb.PKColumn = ctb.Define ["id", "bigserial", "PRIMARY KEY", "NOT NULL"]
      ∧ ctb.CreatedColumn
        = ctb.Define ["created_at", "timestamptz", "NOT NULL", "DEFAULT NOW()"]
      ∧ ctb.UpdatedColumn
        = ctb.Define ["updated_at", "timestamptz", "NOT NULL", "DEFAULT NOW()"]
      ∧ ctb.DeletedColumn = ctb.Define ["deleted_at", "timestamptz", "NULL"]
      ∧ (∀ (colName : String) (colType : types.ColType),
          ctb.Column colName colType true = ctb.Define [colName, colType, "NULL"])
      ∧ (∀ (colName : String) (colType : types.ColType),
          ctb.Column colName colType false = ctb.Define [colName, colType, "NOT NULL"])
      ∧ CreateTableBuilder.BuildWithFlavor.buf ctb.PKColumn
        = CreateTableBuilder.BuildWithFlavor.buf
          (ctb.Define ["id", "bigserial", "PRIMARY KEY", "NOT NULL"])
      ∧ CreateTableBuilder.BuildWithFlavor.buf ctb.CreatedColumn
        = CreateTableBuilder.BuildWithFlavor.buf
          (ctb.Define ["created_at", "timestamptz", "NOT NULL", "DEFAULT NOW()"])
      ∧ CreateTableBuilder.BuildWithFlavor.buf ctb.UpdatedColumn
        = CreateTableBuilder.BuildWithFlavor.buf
          (ctb.Define ["updated_at", "timestamptz", "NOT NULL", "DEFAULT NOW()"])
      ∧ CreateTableBuilder.BuildWithFlavor.buf ctb.DeletedColumn
        = CreateTableBuilder.BuildWithFlavor.buf
          (ctb.Define ["deleted_at", "timestamptz", "NULL"])
      ∧ (∀ (colName : String) (colType : types.ColType),
          CreateTableBuilder.BuildWithFlavor.buf (ctb.Column colName colType true)
            = CreateTableBuilder.BuildWithFlavor.buf (ctb.Define [colName, colType, "NULL"]))
      ∧ (∀ (colName : String) (colType : types.ColType),
          CreateTableBuilder.BuildWithFlavor.buf (ctb.Column colName colType false)
            = CreateTableBuilder.BuildWithFlavor.buf
              (ctb.Define [colName, colType, "NOT NULL"])) :=
  ⟨rfl, rfl, rfl, rfl, fun _ _ => rfl, fun _ _ => rfl, rfl, rfl, rfl, rfl, fun _ _ => rfl,
    fun _ _ => rfl⟩

/-! ## C13: two flavors -/

theorem emit_args_flavor {α : Type} (args : Args α) (f1 f2 : Flavor) (n : Nat)
    (out1 out2 : String) (vals : List α) :
    (∃ e, args.emit f1 n out1 vals = .error e ∧ args.emit f2 n out2 vals = .error e)
      ∨ ∃ o1 o2 vals1, args.emit f1 n out1 vals = .ok (o1, vals1)
          ∧ args.emit f2 n out2 vals = .ok (o2, vals1) := by
  unfold Args.emit
  cases args.values[n]? with
  | none => exact Or.inl ⟨_, rfl, rfl⟩
  | some v => exact Or.inr ⟨_, _, _, rfl, rfl⟩

/-- The arguments that the scan collects, and whether it fails, do not depend
on the flavor nor on the text written so far. -/
theorem scan_args_flavor {α : Type} (args : Args α) (f1 f2 : Flavor) (cs : List Char) :
    ∀ (mode : ScanMode) (out1 out2 : String) (vals : List α),
      Except.map Prod.snd (args.scan f1 mode cs out1 vals)
        = Except.map Prod.snd (args.scan f2 mode cs out2 vals) := by
  induction cs with
  | nil =>
    intro mode out1 out2 vals
    cases mode with
    | text => rfl
    | sigil => rfl
    | index n =>
      show Except.map Prod.snd (args.emit f1 n out1 vals)
        = Except.map Prod.snd (args.emit f2 n out2 vals)
      rcases emit_args_flavor args f1 f2 n out1 out2 vals with ⟨e, h1, h2⟩ | ⟨o1, o2, v1, h1, h2⟩
      · simp [h1, h2, Except.map]
      · simp [h1, h2, Except.map]
  | cons c cs ih =>
    intro mode out1 out2 vals
    cases mode with
    | text =>
      rw [scan_text_cons, scan_text_cons]
      by_cases hc : c = tokenSigil
      · rw [if_pos hc, if_pos hc]; exact ih _ _ _ _
      · rw [if_neg hc, if_neg hc]; exact ih _ _ _ _
    | sigil =>
      rw [scan_sigil_cons, scan_sigil_cons]
      by_cases hd : c.isDigit = true
      · rw [if_pos hd, if_pos hd]; exact ih _ _ _ _
      · rw [if_neg hd, if_neg hd]
    | index n =>
      rw [scan_index_cons, scan_index_cons]
      by_cases hd : c.isDigit = true
      · rw [if_pos hd, if_pos hd]; exact ih _ _ _ _
      · rw [if_neg hd, if_neg hd]
        rcases emit_args_flavor args f1 f2 n out1 out2 vals with
          ⟨e, h1, h2⟩ | ⟨o1, o2, v1, h1, h2⟩
        · rw [h1, h2]
        · rw [h1, h2]
          by_cases hc : c = tokenSigil
          · simp only [if_pos hc]; exact ih _ _ _ _
          · simp only [if_neg hc]; exact ih _ _ _ _

theorem map_some_injective {α : Type} (a b : List α) (h : a.map some = b.map some) : a = b := by
  induction a generalizing b with
  | nil =>
    cases b with
    | nil => rfl
    | cons y ys => simp at h
  | cons x xs ih =>
    cases b with
    | nil => simp at h
    | cons y ys =>
      simp only [List.map_cons, List.cons.injEq, Option.some.injEq] at h
      rw [h.1, ih ys h.2]

/-- C13: for every builder and every two flavors, the two builds compile the
same assembled text; they fail alike or return the same argument list; and
when the first returns a statement, its text and the text of the second are
the same plain text around the same token occurrences, with the placeholders
of the respective flavor. -/
theorem C13_flavor_substitutability {α : Type} (ctb : CreateTableBuilder α) (f1 f2 : Flavor)
    (initialArg : List α) :
    ((ctb.BuildWithFlavor f1 initialArg).1
          = ctb.args.CompileWithFlavor (CreateTableBuilder.BuildWithFlavor.buf ctb) f1 initialArg
        ∧ (ctb.BuildWithFlavor f2 initialArg).1
          = ctb.args.CompileWithFlavor (CreateTableBuilder.BuildWithFlavor.buf ctb) f2
              initialArg)
      ∧ Except.map Prod.snd (ctb.BuildWithFlavor f1 initialArg).1
        = Except.map Prod.snd (ctb.BuildWithFlavor f2 initialArg).1
      ∧ ∀ (text1 : String) (args1 : List α),
          (ctb.BuildWithFlavor f1 initialArg).1 = .ok (text1, args1) →
          ∃ (lit0 : List Char) (segs : List TokenSegment),
            tokenSigil ∉ lit0
              ∧ (CreateTableBuilder.BuildWithFlavor.buf ctb).data = skeletonChars lit0 segs
              ∧ text1 = renderedText f1 initialArg.length lit0 segs
              ∧ args1.length = initialArg.length + segs.length
              ∧ (ctb.BuildWithFlavor f2 initialArg).1
                = .ok (renderedText f2 initialArg.length lit0 segs, args1) := by
  have hempty : ∀ t : String, "" ++ t = t := by
    intro t; apply String.ext; simp [String.data_append]
  refine ⟨⟨rfl, rfl⟩, scan_args_flavor ctb.args f1 f2 _ .text "" "" initialArg, ?_⟩
  intro text1 args1 h
  obtain ⟨lit0, segs, added, h0, hwf, hcs, htext, hres, hadd⟩ :=
    (scan_ok_decompose ctb.args f1 (CreateTableBuilder.BuildWithFlavor.buf ctb).data).1
      "" initialArg text1 args1 h
  have hreg : ∀ s ∈ segs, ∃ v, ctb.args.values[decimalValue 0 s.digits]? = some v := by
    intro s hs
    obtain ⟨i, hi, hget⟩ := List.getElem_of_mem hs
    have h1 : (added.map some)[i]?
        = (segs.map (fun s => ctb.args.values[decimalValue 0 s.digits]?))[i]? := by rw [hadd]
    rw [List.getElem?_map, List.getElem?_map, List.getElem?_eq_getElem hi, hget] at h1
    cases hai : added[i]? with
    | none =>
      have hlen : added.length = segs.length := by
        have := congrArg List.length hadd
        simpa using this
      rw [List.getElem?_eq_none_iff] at hai
      omega
    | some a =>
      rw [hai] at h1
      simp only [Option.map_some'] at h1
      exact ⟨a, (Option.some.inj h1).symm⟩
  obtain ⟨added2, hscan2, hadd2⟩ :=
    scan_skeleton ctb.args f2 segs lit0 "" initialArg h0 hwf hreg
  have hsame : added2 = added := map_some_injective _ _ (by rw [hadd2, hadd])
  have hlen : added.length = segs.length := by
    have := congrArg List.length hadd
    simpa using this
  refine ⟨lit0, segs, h0, hcs, by rw [htext, hempty], by rw [hres, List.length_append, hlen], ?_⟩
  show ctb.args.scan f2 .text (CreateTableBuilder.BuildWithFlavor.buf ctb).data "" initialArg = _
  rw [hcs, hscan2, hempty, hsame, hres]

set_option maxRecDepth 100000 in
/-- C13 at the builder with two registered values: question marks against
numbered placeholders, the same two arguments in the same order. -/
theorem C13_flavor_substitutability_witness :
    (registeringBuilder.BuildWithFlavor questionFlavor []).1
        = .ok ("CREATE TABLE t (a int DEFAULT ?) b = ?", [9, 7])
      ∧ (registeringBuilder.BuildWithFlavor ordinalFlavor []).1
        = .ok ("CREATE TABLE t (a int DEFAULT :1) b = :2", [9, 7])
      ∧ ∃ (lit0 : List Char) (segs : List TokenSegment),
          tokenSigil ∉ lit0
            ∧ (CreateTableBuilder.BuildWithFlavor.buf registeringBuilder).data
              = skeletonChars lit0 segs
            ∧ "CREATE TABLE t (a int DEFAULT ?) b = ?"
              = renderedText questionFlavor ([] : List Nat).length lit0 segs
            ∧ ([9, 7] : List Nat).length = ([] : List Nat).length + segs.length
            ∧ (registeringBuilder.BuildWithFlavor ordinalFlavor []).1
              = .ok (renderedText ordinalFlavor ([] : List Nat).length lit0 segs, [9, 7]) :=
  ⟨rfl, rfl,
    (C13_flavor_substitutability registeringBuilder questionFlavor ordinalFlavor []).2.2
      "CREATE TABLE t (a int DEFAULT ?) b = ?" [9, 7] rfl⟩

/-! ## C14: type modifiers -/

theorem Join_cons_append (x a sep : String) (rest : List String) :
    strings.Join ((x ++ a) :: rest) sep = x ++ strings.Join (a :: rest) sep := by
  cases rest with
  | nil => rfl
  | cons b bs => simp [strings.Join, String.append_assoc]

theorem intercalate_go_eq_Join (sep : String) (rest : List String) :
    ∀ acc : String, String.intercalate.go acc sep rest = strings.Join (acc :: rest) sep := by
  induction rest with
  | nil => intro acc; rfl
  | cons a rest ih =>
    intro acc
    rw [String.intercalate.go, ih, String.append_assoc, Join_cons_append, Join_cons_append,
      ← String.append_assoc]
    rfl

theorem Join_eq_intercalate (elems : List String) (sep : String) :
    strings.Join elems sep = sep.intercalate elems := by
  cases elems with
  | nil => rfl
  | cons a rest => exact (intercalate_go_eq_Join sep rest a).symm

/-- C14: `c.Options(m1, ..., mn)` is `c`, an opening parenthesis, the modifiers
with one comma and no space between two of them, and a closing parenthesis;
with no modifier it is `c` followed by `()`. -/
theorem C14_coltype_options (c : types.ColType) (options : List String) :
    c.Options options = c ++ "(" ++ ",".intercalate options ++ ")"
      ∧ c.Options [] = c ++ "()"
      ∧ (∀ m : String, c.Options [m] = c ++ "(" ++ m ++ ")")
      ∧ (∀ m1 m2 : String, c.Options [m1, m2] = c ++ "(" ++ m1 ++ "," ++ m2 ++ ")")
      ∧ types.Varchar.Options ["255"] = "varchar(255)"
      ∧ types.Decimal.Options ["10", "2"] = "decimal(10,2)" := by
  refine ⟨?_, ?_, ?_, ?_, rfl, rfl⟩
  · unfold types.ColType.Options
    rw [Join_eq_intercalate]
  · unfold types.ColType.Options
    simp [strings.Join, String.append_assoc]
  · intro m
    rfl
  · intro m1 m2
    unfold types.ColType.Options
    simp [strings.Join, String.append_assoc]

/-! ## C15: building leaves the builder as it is -/

/-- C15: `BuildWithFlavor` leaves every field of the builder as it was: the
verb, the flag, the table name, the definitions, the options, the marker and
the queued injections (and the registered values); so every later call acts
as on the builder before the build, and a sequence of calls with a build in
its middle ends in the same builder as the sequence without it. -/
theorem C15_build_changes_no_field {α : Type} (Escape : String → String)
    (ctb : CreateTableBuilder α) (flavor : Flavor) (initialArg : List α) :
    (ctb.BuildWithFlavor flavor initialArg).2.verb = ctb.verb
      ∧ (ctb.BuildWithFlavor flavor initialArg).2.ifNotExists = ctb.ifNotExists
      ∧ (ctb.BuildWithFlavor flavor initialArg).2.table = ctb.table
      ∧ (ctb.BuildWithFlavor flavor initialArg).2.defs = ctb.defs
      ∧ (ctb.BuildWithFlavor flavor initialArg).2.options = ctb.options
      ∧ (ctb.BuildWithFlavor flavor initialArg).2.marker = ctb.marker
      ∧ (ctb.BuildWithFlavor flavor initialArg).2.injection = ctb.injection
      ∧ (ctb.BuildWithFlavor flavor initialArg).2.args = ctb.args
      ∧ (ctb.BuildWithFlavor flavor initialArg).2 = ctb
      ∧ (∀ op : Op α,
          applyOp Escape op (ctb.BuildWithFlavor flavor initialArg).2 = applyOp Escape op ctb)
      ∧ (∀ (ops1 ops2 : List (Op α)) (c : CreateTableBuilder α),
          runOps Escape (ops1 ++ .BuildWithFlavor flavor initialArg :: ops2) c
            = runOps Escape (ops1 ++ ops2) c) := by
  refine ⟨rfl, rfl, rfl, rfl, rfl, rfl, rfl, rfl, rfl, fun _ => rfl, ?_⟩
  intro ops1 ops2 c
  rw [runOps_append, runOps_append]
  cases runOps Escape ops1 c with
  | none => rfl
  | some c1 => rfl

/-! ## C16: a builder without a target -/

/-- C16: a new builder on which no target was set builds, with every flavor
and through `Build`, to the verb, one space and the empty table name, with an
empty argument list. -/
theorem C16_new_builder_builds {α : Type} (DefaultFlavor zeroFlavor flavor : Flavor) :
    (NewCreateTableBuilder DefaultFlavor zeroFlavor : CreateTableBuilder α).table = ""
      ∧ ((NewCreateTableBuilder DefaultFlavor zeroFlavor :
            CreateTableBuilder α).BuildWithFlavor flavor []).1
        = .ok ("CREATE TABLE ", [])
      ∧ (NewCreateTableBuilder DefaultFlavor zeroFlavor : CreateTableBuilder α).Build.1
        = .ok ("CREATE TABLE ", [])
      ∧ ((newCreateTableBuilder zeroFlavor : CreateTableBuilder α).BuildWithFlavor flavor []).1
        = .ok ("CREATE TABLE ", []) :=
  ⟨rfl, rfl, rfl, rfl⟩

/-! ## C17: no injected SQL is dropped -/

theorem Join_occurs (sep : String) (l : List String) :
    ∀ s ∈ l, s.data <:+: (strings.Join l sep).data := by
  induction l with
  | nil => intro s hs; simp at hs
  | cons a rest ih =>
    intro s hs
    cases rest with
    | nil =>
      simp only [List.mem_singleton] at hs
      rw [hs]
      exact List.infix_refl _
    | cons b bs =>
      simp only [strings.Join, String.data_append]
      rcases List.mem_cons.mp hs with e | e
      · rw [e]
        exact ⟨[], sep.data ++ (strings.Join (b :: bs) sep).data, by simp⟩
      · exact List.IsInfix.trans (ih s e) (List.suffix_append _ _).isInfix

theorem flushText_occurs (l : List String) : ∀ s ∈ l, s.data <:+: (flushText l).data := by
  intro s hs
  cases l with
  | nil => simp at hs
  | cons a rest =>
    simp only [flushText, String.data_append]
    exact List.IsInfix.trans (Join_occurs " " (a :: rest) s hs) (List.suffix_append _ _).isInfix

theorem markerAfter_mem {α : Type} (op : Op α) (m : injectionMarker)
    (h : m ∈ createTableMarkers) : markerAfter op m ∈ createTableMarkers := by
  cases op <;> first
    | exact h
    | simp [markerAfter, createTableMarkers]

theorem queuedAt_mem {α : Type} (sql : String) (ops : List (Op α)) :
    ∀ cur ∈ createTableMarkers, Op.SQL sql ∈ ops →
      ∃ m ∈ createTableMarkers, sql ∈ queuedAt m ops cur := by
  induction ops with
  | nil => intro cur _ h; simp at h
  | cons op ops ih =>
    intro cur hcur h
    rcases List.mem_cons.mp h with e | e
    · refine ⟨cur, hcur, ?_⟩
      rw [← e]
      simp [queuedAt]
    · obtain ⟨m, hm, hq⟩ := ih (markerAfter op cur) (markerAfter_mem op cur hcur) e
      refine ⟨m, hm, ?_⟩
      rw [queuedAt_cons]
      exact List.mem_append_right _ hq

theorem occurs_after (x a r : List Char) (h : x <:+: r) : x <:+: a ++ r :=
  List.IsInfix.trans h (List.suffix_append a r).isInfix

theorem occurs_first (x r : List Char) : x <:+: x ++ r :=
  (List.prefix_append x r).isInfix

theorem flush_occurs_grammarText {α : Type} (ctb : CreateTableBuilder α) (m : injectionMarker)
    (hm : m ∈ createTableMarkers) :
    (ctb.injection.flush m).data <:+: (grammarText ctb).data := by
  unfold grammarText
  simp only [createTableMarkers, List.mem_cons, List.mem_singleton, List.not_mem_nil,
    or_false] at hm
  simp only [String.data_append, List.append_assoc]
  rcases hm with e | e | e | e <;> subst e
  · exact occurs_first _ _
  · exact occurs_after _ _ _ (occurs_after _ _ _ (occurs_after _ _ _ (occurs_after _ _ _
      (occurs_after _ _ _ (occurs_first _ _)))))
  · exact occurs_after _ _ _ (occurs_after _ _ _ (occurs_after _ _ _ (occurs_after _ _ _
      (occurs_after _ _ _ (occurs_after _ _ _ (occurs_after _ _ _ (occurs_first _ _)))))))
  · exact occurs_after _ _ _ (occurs_after _ _ _ (occurs_after _ _ _ (occurs_after _ _ _
      (occurs_after _ _ _ (occurs_after _ _ _ (occurs_after _ _ _ (occurs_after _ _ _
        (occurs_after _ _ _ (List.infix_refl _)))))))))

/-- C17: in every builder state that a sequence of public calls produces from a
new builder, a non-empty injection list at AfterDefinitions comes with a
non-empty definitions list and a non-empty injection list at AfterOptions with
a non-empty options list, also after `Define()` and `Option()` without tokens;
so every string passed to `SQL` occurs in the text that `BuildWithFlavor`
assembles. -/
theorem C17_no_injection_dropped {α : Type} (Escape : String → String)
    (DefaultFlavor zeroFlavor : Flavor) (ops : List (Op α)) (ctb : CreateTableBuilder α)
    (h : runOps Escape ops (NewCreateTableBuilder DefaultFlavor zeroFlavor) = some ctb) :
    (ctb.injection.markerSQLs createTableMarkerAfterDefine ≠ [] → ctb.defs ≠ [])
      ∧ (ctb.injection.markerSQLs createTableMarkerAfterOption ≠ [] → ctb.options ≠ [])
      ∧ (ctb.Define []).defs ≠ []
      ∧ (ctb.Option []).options ≠ []
      ∧ ∀ sql : String, Op.SQL sql ∈ ops →
          sql.data <:+: (CreateTableBuilder.BuildWithFlavor.buf ctb).data := by
  have hinv := clauseInvariant_runOps Escape ops _ ctb
    (clauseInvariant_new DefaultFlavor zeroFlavor) h
  obtain ⟨_, _, hq, _⟩ := runOps_trace Escape ops _ ctb h
  refine ⟨fun hne hd => hne (hinv.1 hd).1, fun hne ho => hne (hinv.2 ho).1,
    by simp [CreateTableBuilder.Define], by simp [CreateTableBuilder.Option], ?_⟩
  intro sql hsql
  obtain ⟨m, hm, hmem⟩ := queuedAt_mem sql ops createTableMarkerInit
    (by simp [createTableMarkers]) hsql
  have hlist : sql ∈ ctb.injection.markerSQLs m := by
    rw [hq m]
    exact List.mem_append_right _ (by
      rw [(new_fields DefaultFlavor zeroFlavor).2.2.2.1]
      exact hmem)
  rw [buf_eq_grammarText ctb hinv]
  refine List.IsInfix.trans ?_ (flush_occurs_grammarText ctb m hm)
  rw [flush_eq_flushText]
  exact flushText_occurs _ sql hlist

set_option maxRecDepth 100000 in
/-- C17 at the interleaving example: the string `b`, queued after the options,
occurs in the assembled text. -/
theorem C17_no_injection_dropped_witness :
    runOps id interleavedOps (NewCreateTableBuilder questionFlavor questionFlavor)
        = some interleavedBuilder
      ∧ Op.SQL "b" ∈ interleavedOps
      ∧ "b".data <:+: (CreateTableBuilder.BuildWithFlavor.buf interleavedBuilder).data
      ∧ CreateTableBuilder.BuildWithFlavor.buf interleavedBuilder
        = "CREATE TABLE t (d1, d2) a c o b" :=
  ⟨rfl, by simp [interleavedOps],
    (C17_no_injection_dropped id questionFlavor questionFlavor interleavedOps
      interleavedBuilder rfl).2.2.2.2 "b" (by simp [interleavedOps]),
    rfl⟩

/-! ## C18: the foreign-key column -/

/-- C18: for a table name with at least one dot, `FKColumn` is the `Define`
call with the column name (the second segment of the table name without one
trailing `s`, followed by `_id`), `bigserial`, `NOT NULL` unless the column is
nullable, `REFERENCES`, and the table name followed by `(id)`. -/
theorem C18_FKColumn_is_define {α : Type} (ctb : CreateTableBuilder α)
    (completeTableName : String) (h : '.' ∈ completeTableName.data) :
    ctb.FKColumn completeTableName false
        = some (ctb.Define [foreignKeyColumn completeTableName, "bigserial", "NOT NULL",
            "REFERENCES", completeTableName ++ "(id)"])
      ∧ ctb.FKColumn completeTableName true
        = some (ctb.Define [foreignKeyColumn completeTableName, "bigserial", "REFERENCES",
            completeTableName ++ "(id)"]) := by
  unfold CreateTableBuilder.FKColumn
  rw [FKColumn_props_of_mem completeTableName false h,
    FKColumn_props_of_mem completeTableName true h]
  exact ⟨rfl, rfl⟩

/-- C18 at the three names of the claim. -/
theorem C18_FKColumn_is_define_witness :
    '.' ∈ "public.users".data
      ∧ foreignKeyColumn "public.users" = "user_id"
      ∧ foreignKeyColumn "public.address" = "addres_id"
      ∧ foreignKeyColumn "db.public.users" = "public_id"
      ∧ (interleavedBuilder.FKColumn "public.users" false
          = some (interleavedBuilder.Define [foreignKeyColumn "public.users", "bigserial",
              "NOT NULL", "REFERENCES", "public.users" ++ "(id)"])
        ∧ interleavedBuilder.FKColumn "public.users" true
          = some (interleavedBuilder.Define [foreignKeyColumn "public.users", "bigserial",
              "REFERENCES", "public.users" ++ "(id)"])) :=
  ⟨by decide, by decide, by decide, by decide,
    C18_FKColumn_is_define interleavedBuilder "public.users" (by decide)⟩

/-! ## C19: temporary tables -/

theorem String_fst {α : Type} (ctb : CreateTableBuilder α) :
    ctb.String.1 = Except.map Prod.fst ctb.Build.1 := by
  unfold CreateTableBuilder.String
  split <;> rename_i heq <;> rw [heq] <;> rfl

theorem scan_congr_values {α : Type} (a1 a2 : Args α) (hval : a1.values = a2.values)
    (flavor : Flavor) (cs : List Char) :
    ∀ (mode : ScanMode) (out : String) (vals : List α),
      a1.scan flavor mode cs out vals = a2.scan flavor mode cs out vals := by
  have hemit : ∀ (n : Nat) (out : String) (vals : List α),
      a1.emit flavor n out vals = a2.emit flavor n out vals := by
    intro n out vals
    unfold Args.emit
    rw [hval]
  induction cs with
  | nil =>
    intro mode out vals
    cases mode with
    | text => rfl
    | sigil => rfl
    | index n => exact hemit n out vals
  | cons c cs ih =>
    intro mode out vals
    cases mode with
    | text => rw [scan_text_cons, scan_text_cons, ih, ih]
    | sigil => rw [scan_sigil_cons, scan_sigil_cons, ih]
    | index n =>
      rw [scan_index_cons, scan_index_cons, ih, hemit]
      cases a2.emit flavor n out vals with
      | error e => rfl
      | ok p => simp only [ih]

theorem Build_setFlavor {α : Type} (ctb : CreateTableBuilder α) (flavor : Flavor) :
    (ctb.SetFlavor flavor).2.Build.1 = (ctb.BuildWithFlavor flavor []).1 :=
  scan_congr_values (ctb.SetFlavor flavor).2.args ctb.args rfl flavor
    (CreateTableBuilder.BuildWithFlavor.buf ctb).data .text "" []

/-- C20: `SetFlavor(f)` returns the flavor that was set before the call and
makes `f` the flavor of the builder: afterwards `Build` returns what
`BuildWithFlavor(f)` returns without initial arguments, `String` returns the
text of that result, and `SetFlavor` with the returned flavor gives back the
builder before the call, and with it its `Build` result; no other field of the
builder changes. -/
theorem C20_setFlavor {α : Type} (ctb : CreateTableBuilder α) (flavor : Flavor) :
    (ctb.SetFlavor flavor).1 = ctb.args.Flavor
      ∧ (ctb.SetFlavor flavor).2.args.Flavor = flavor
      ∧ (ctb.SetFlavor flavor).2.Build.1 = ((ctb.SetFlavor flavor).2.BuildWithFlavor flavor []).1
      ∧ (ctb.SetFlavor flavor).2.Build.1 = (ctb.BuildWithFlavor flavor []).1
      ∧ (ctb.SetFlavor flavor).2.String.1
        = Except.map Prod.fst ((ctb.SetFlavor flavor).2.BuildWithFlavor flavor []).1
      ∧ ((ctb.SetFlavor flavor).2.SetFlavor (ctb.SetFlavor flavor).1).2 = ctb
      ∧ ((ctb.SetFlavor flavor).2.SetFlavor (ctb.SetFlavor flavor).1).2.Build.1 = ctb.Build.1
      ∧ ((ctb.SetFlavor flavor).2.verb = ctb.verb
        ∧ (ctb.SetFlavor flavor).2.ifNotExists = ctb.ifNotExists
        ∧ (ctb.SetFlavor flavor).2.table = ctb.table
        ∧ (ctb.SetFlavor flavor).2.defs = ctb.defs
        ∧ (ctb.SetFlavor flavor).2.options = ctb.options
        ∧ (ctb.SetFlavor flavor).2.injection = ctb.injection
        ∧ (ctb.SetFlavor flavor).2.marker = ctb.marker
        ∧ (ctb.SetFlavor flavor).2.args.values = ctb.args.values) :=
  ⟨rfl, rfl, rfl, Build_setFlavor ctb flavor, String_fst _, rfl, rfl,
    ⟨rfl, rfl, rfl, rfl, rfl, rfl, rfl, rfl⟩⟩

end Sqlbuilder
